import Mathlib

/-!
Verification of the `quou/ecs` single-header ECS library (`ecs.hpp`).

The development shallowly embeds the library's data structures and
operations:

* entity handles are 64-bit values modelled as `Nat` with explicit
  `% 2^32` truncation at the points where the source casts to `u32`;
* `Component_Pool` buffers (`sparse`, `dense`, `data`) are modelled as
  Lean lists; `data` carries the full allocated `capacity * element_size`
  bytes (bytes past the live prefix model uninitialized storage and are
  filled with `0` on allocation);
* memory-management observations (which old buffers an operation frees
  immediately and which it pushes on the World's deferred-delete buffer)
  are returned explicitly as lists of `Delete_Type` tags;
* the World's identity table is modelled by `World_Id`
  (`entities`/`alive_count`/`avail_id`); the `entity_capacity` doubling of
  `generate_entity` does not change any stored handle (its `mem_copy`
  copies the whole old allocation), so capacity bookkeeping is modelled
  separately by `generate_entity_realloc`, which records what the source
  does with the old allocation;
* component create/destroy hooks are modelled by exposing the exact
  intermediate state the source passes to the hook.
-/

namespace Ecs

/-- `2^32`, the modulus of the 32-bit id and version fields. -/
def idMod : Nat := 2 ^ 32

/-- `null_entity_id = UINT32_MAX`. -/
def null_entity_id : Nat := 2 ^ 32 - 1

/-- `null_handle = UINT64_MAX`. -/
def null_handle : Nat := 2 ^ 64 - 1

/-- `get_entity_id(e) = (Entity_ID)e` — the low 32 bits. -/
def get_entity_id (e : Nat) : Nat := e % idMod

/-- `get_entity_version(e) = e >> 32` truncated to `u32`. -/
def get_entity_version (e : Nat) : Nat := (e / idMod) % idMod

/-- `make_handle(id, v) = ((Entity_Handle)v << 32) | id`; both arguments
are `u32`, so they are truncated to 32 bits.  The fields are disjoint, so
bitwise-or is addition. -/
def make_handle (id v : Nat) : Nat := (v % idMod) * idMod + (id % idMod)

theorem get_entity_id_make_handle (id v : Nat) :
    get_entity_id (make_handle id v) = id % idMod := by
  unfold get_entity_id make_handle idMod
  omega

theorem get_entity_version_make_handle (id v : Nat) :
    get_entity_version (make_handle id v) = v % idMod := by
  unfold get_entity_version make_handle idMod
  omega

theorem make_handle_lt (id v : Nat) : make_handle id v < idMod * idMod := by
  unfold make_handle
  have h1 : id % idMod < idMod := Nat.mod_lt _ (by unfold idMod; norm_num)
  have h2 : v % idMod < idMod := Nat.mod_lt _ (by unfold idMod; norm_num)
  nlinarith

theorem make_handle_inj {a b x y : Nat} (ha : a < idMod) (hb : b < idMod)
    (hx : x < idMod) (hy : y < idMod) (h : make_handle a x = make_handle b y) :
    a = b ∧ x = y := by
  unfold make_handle idMod at *
  omega

theorem getD_set_self {α : Type} (l : List α) (i : Nat) (a b : α) (hi : i < l.length) :
    (l.set i a).getD i b = a := by
  rw [List.getD_eq_getElem?_getD, List.getElem?_set_eq_of_lt a hi]
  rfl

theorem getD_set_ne {α : Type} (l : List α) {i j : Nat} (a b : α) (hij : i ≠ j) :
    (l.set i a).getD j b = l.getD j b := by
  rw [List.getD_eq_getElem?_getD, List.getElem?_set_ne hij,
    ← List.getD_eq_getElem?_getD]

theorem getD_append_lt {α : Type} (l1 l2 : List α) (d : α) (i : Nat)
    (h : i < l1.length) : (l1 ++ l2).getD i d = l1.getD i d := by
  rw [List.getD_eq_getElem?_getD, List.getElem?_append, if_pos h,
    ← List.getD_eq_getElem?_getD]

theorem getD_append_ge {α : Type} (l1 l2 : List α) (d : α) (i : Nat)
    (h : l1.length ≤ i) : (l1 ++ l2).getD i d = l2.getD (i - l1.length) d := by
  rw [List.getD_eq_getElem?_getD, List.getElem?_append_right h,
    ← List.getD_eq_getElem?_getD]

theorem getD_take_lt {α : Type} (l : List α) (d : α) (m i : Nat) (h : i < m) :
    (l.take m).getD i d = l.getD i d := by
  rw [List.getD_eq_getElem?_getD, List.getElem?_take, if_pos h,
    ← List.getD_eq_getElem?_getD]

theorem getD_replicate {α : Type} (d : α) (r i : Nat) :
    (List.replicate r d).getD i d = d := by
  rw [List.getD_eq_getElem?_getD]
  by_cases h : i < r
  · rw [List.getElem?_replicate, if_pos h]
    rfl
  · rw [List.getElem?_eq_none_iff.mpr (by simpa using h)]
    rfl

theorem getD_snoc_self {α : Type} (l : List α) (a d : α) :
    (l ++ [a]).getD l.length d = a := by
  rw [getD_append_ge _ _ _ _ (le_refl _), Nat.sub_self]
  rfl

theorem toNat_ofNat (n : Nat) : (Int.ofNat n).toNat = n := rfl

/-- The tags of `World::Delete_Type`: which kind of buffer a
`Deletion_Entry` releases. -/
inductive Delete_Type
  | u8
  | u64
  | i64
  | component_pool
  | entity_handle
deriving DecidableEq, Repr

/-- `internal::Component_Pool`.  `sparse_capacity` is `sparse.length`
(the sparse array is grown to exactly the size it needs).  `dense` holds
the live prefix of the dense array (`dense_count` entries) with
`dense_capacity` tracked separately, since the slack past `dense_count`
is never read.  `data` holds the full allocation of
`capacity * element_size` bytes, because `World::collect_garbage` reads
past the live prefix. -/
structure Component_Pool where
  sparse : List Int
  dense : List Nat
  dense_capacity : Nat
  data : List Nat
  count : Nat
  dense_count : Nat
  capacity : Nat
  element_size : Nat
  id : Nat
deriving DecidableEq, Repr

/-- `Component_Pool::init(world, type_id, el_size)` applied to a
fresh pool: all buffers null, all counts zero. -/
def Component_Pool.init (type_id el_size : Nat) : Component_Pool :=
  { sparse := [], dense := [], dense_capacity := 0, data := [], count := 0,
    dense_count := 0, capacity := 0, element_size := el_size, id := type_id }

/-- `Component_Pool::has`: `get_entity_id(e) < sparse_capacity &&
sparse[id] != -1`. -/
def Component_Pool.has (p : Component_Pool) (e : Nat) : Bool :=
  decide (get_entity_id e < p.sparse.length) &&
    decide (p.sparse.getD (get_entity_id e) (-1) ≠ -1)

/-- `Component_Pool::sparse_idx`: the unchecked read
`sparse[get_entity_id(e)]`.  Out-of-bounds reads (which the source never
performs on the paths proved below) default to `-1`. -/
def Component_Pool.sparse_idx (p : Component_Pool) (e : Nat) : Int :=
  p.sparse.getD (get_entity_id e) (-1)

/-- `Component_Pool::get_by_idx`: the `element_size` payload bytes at
`&data[idx * element_size]`. -/
def Component_Pool.get_by_idx (p : Component_Pool) (idx : Nat) : List Nat :=
  (p.data.drop (idx * p.element_size)).take p.element_size

/-- `Component_Pool::get`. -/
def Component_Pool.get (p : Component_Pool) (e : Nat) : List Nat :=
  p.get_by_idx (p.sparse_idx e).toNat

/-- Overwrite `c.length` bytes of `l` starting at offset `off`
(the effect of `*n = c` / `memmove` on the byte buffer). -/
def bytesWrite (l : List Nat) (off : Nat) (c : List Nat) : List Nat :=
  l.take off ++ c ++ l.drop (off + c.length)

/-- Result of `Component_Pool::add`: the new pool state, the packed index
whose payload slot the returned pointer designates, and the old buffers
the call pushed on the World's deferred-delete buffer (`deferred`) or
released immediately (`freed`). -/
structure Add_Result where
  pool : Component_Pool
  new_idx : Nat
  deferred : List Delete_Type
  freed : List Delete_Type
deriving Repr

/-- `Component_Pool::add(e)`.  Mirrors the source order: grow `data`
(doubling from 8), reserve payload slot `count++`, grow `sparse` to
exactly `eid + 1` filling new entries with `-1`, set
`sparse[eid] = dense_count`, grow `dense` (doubling from 8), append `e`.
Each growth site frees the old buffer immediately when
`world->iteration_depth <= 0` and pushes it on the deferred-delete
buffer otherwise; a buffer exists (the pointer is non-null) iff its
capacity is non-zero. -/
def Component_Pool.add (p : Component_Pool) (e : Nat) (iteration_depth : Int) :
    Add_Result :=
  let growData := p.count ≥ p.capacity
  let capacity1 :=
    if growData then (if p.capacity < 8 then 8 else p.capacity * 2) else p.capacity
  let data1 :=
    if growData then p.data ++ List.replicate ((capacity1 - p.capacity) * p.element_size) 0
    else p.data
  let ev1 : List Delete_Type := if growData ∧ p.capacity ≠ 0 then [Delete_Type.u8] else []
  let new_idx := p.count
  let eid := get_entity_id e
  let growSparse := eid ≥ p.sparse.length
  let sparse1 :=
    if growSparse then p.sparse ++ List.replicate (eid + 1 - p.sparse.length) (-1)
    else p.sparse
  let ev2 : List Delete_Type :=
    if growSparse ∧ p.sparse.length ≠ 0 then [Delete_Type.i64] else []
  let sparse2 := sparse1.set eid (Int.ofNat p.dense_count)
  let growDense := p.dense_count ≥ p.dense_capacity
  let dense_capacity1 :=
    if growDense then (if p.dense_capacity < 8 then 8 else p.dense_capacity * 2)
    else p.dense_capacity
  let ev3 : List Delete_Type :=
    if growDense ∧ p.dense_capacity ≠ 0 then [Delete_Type.entity_handle] else []
  let evs := ev1 ++ ev2 ++ ev3
  { pool := { p with
      data := data1, capacity := capacity1, count := p.count + 1,
      sparse := sparse2, dense := p.dense ++ [e],
      dense_capacity := dense_capacity1, dense_count := p.dense_count + 1 },
    new_idx := new_idx,
    deferred := if iteration_depth ≤ 0 then [] else evs,
    freed := if iteration_depth ≤ 0 then evs else [] }

/-- `Entity::add<T>(c)` after the asserts: `T* n = (T*)pool.add(handle);
*n = c;` — the pool insertion followed by the caller's payload write. -/
def Component_Pool.add_write (p : Component_Pool) (e : Nat) (c : List Nat)
    (iteration_depth : Int) : Component_Pool :=
  let r := p.add e iteration_depth
  { r.pool with data := bytesWrite r.pool.data (r.new_idx * p.element_size) c }

/-- The pool state `Entity::add` passes to a registered `on_create` hook:
the hook fires after `pool.add` and after the payload write `*n = c`. -/
def Entity.add_hook_state (p : Component_Pool) (e : Nat) (c : List Nat)
    (iteration_depth : Int) : Component_Pool :=
  p.add_write e c iteration_depth

/-- `Component_Pool::remove(e)` (the state mutation after the
`on_destroy` call): swap-and-pop with `pos = sparse[id(e)]`,
`other = dense[dense_count - 1]`. -/
def Component_Pool.remove (p : Component_Pool) (e : Nat) : Component_Pool :=
  let pos := (p.sparse.getD (get_entity_id e) (-1)).toNat
  let other := p.dense.getD (p.dense_count - 1) 0
  let sparse1 := p.sparse.set (get_entity_id other) (Int.ofNat pos)
  let dense1 := p.dense.set pos other
  let sparse2 := sparse1.set (get_entity_id e) (-1)
  let data1 := bytesWrite p.data (pos * p.element_size)
      ((p.data.drop ((p.count - 1) * p.element_size)).take p.element_size)
  { p with
    sparse := sparse2
    dense := dense1.take (p.dense_count - 1)
    data := data1
    dense_count := p.dense_count - 1
    count := p.count - 1 }

/-- `Component_Pool::remove` with the hook observation made explicit: the
`on_destroy` call is the first statement of `remove`, so a registered
hook observes the argument pool unchanged; the swap-and-pop then yields
`pool`. -/
structure Remove_Result where
  hook_state : Component_Pool
  pool : Component_Pool

/-- See `Remove_Result`. -/
def Component_Pool.remove_traced (p : Component_Pool) (e : Nat) : Remove_Result :=
  { hook_state := p, pool := p.remove e }

/-- The per-pool shrink step of `World::collect_garbage`: for a pool with
`count > 8 && capacity > count * 2`, set `capacity = count` rounded up to
the next multiple of 8, allocate `capacity * element_size` bytes and
`mem_copy(new_alloc, p->data, p->capacity)` — that is, copy only
`capacity` bytes (the count argument of the byte-wise `mem_copy` is the
new `p->capacity`), leaving the rest of the new buffer uninitialized
(modelled as zeros). -/
def Component_Pool.collect_garbage_pool (p : Component_Pool) : Component_Pool :=
  if p.count > 8 ∧ p.capacity > p.count * 2 then
    let cap0 := p.count
    let r := cap0 % 8
    let cap := if r = 0 then cap0 else cap0 + (8 - r)
    { p with
      capacity := cap
      data := p.data.take cap ++ List.replicate (cap * p.element_size - cap) 0 }
  else p

/-- The sparse-set well-formedness invariant of a pool (spec P1–P3/P5):
counts agree, `data` spans the allocation, every dense index round-trips
through `sparse`, and every non-`-1` sparse entry is owned by a dense
entry. -/
def Component_Pool.wf (p : Component_Pool) : Prop :=
  p.dense.length = p.dense_count ∧
  p.count = p.dense_count ∧
  p.count ≤ p.capacity ∧
  p.dense_count ≤ p.dense_capacity ∧
  p.data.length = p.capacity * p.element_size ∧
  (∀ i < p.dense_count, get_entity_id (p.dense.getD i 0) < p.sparse.length ∧
      p.sparse.getD (get_entity_id (p.dense.getD i 0)) (-1) = Int.ofNat i) ∧
  (∀ j < p.sparse.length, p.sparse.getD j (-1) ≠ -1 →
      ∃ i < p.dense_count, get_entity_id (p.dense.getD i 0) = j)

instance (p : Component_Pool) : Decidable p.wf := by
  unfold Component_Pool.wf
  infer_instance

/-- Pool operations as issued by the `Entity` façade: `add` runs only on
an entity that does not have the component (`Entity::add` asserts
`!has<T>()`), `remove` only on one that has it (`Entity::remove` /
`Entity::destroy` check `has`).  The payload always has exactly
`element_size` bytes, which the C++ type system guarantees. -/
inductive Pool_Op
  | padd (e : Nat) (c : List Nat)
  | premove (e : Nat)

/-- One admissible pool operation; `none` models a failed assert. -/
def pool_step (p : Component_Pool) : Pool_Op → Option Component_Pool
  | Pool_Op.padd e c =>
      if p.has e = false ∧ c.length = p.element_size then
        some (p.add_write e c 0)
      else none
  | Pool_Op.premove e => if p.has e = true then some (p.remove e) else none

/-- Run a sequence of admissible pool operations. -/
def pool_run (ops : List Pool_Op) (p : Component_Pool) : Option Component_Pool :=
  List.foldlM pool_step p ops

/-- The World's entity identity table: `entities` (live prefix of the
handle array, `entity_count = entities.length`), `alive_count`, and the
free-list head `avail_id`.  `entity_capacity` and the reallocation in
`generate_entity` are modelled separately by `generate_entity_realloc`:
the growth copies every allocated element, so it never changes a stored
handle.  Component pools are not part of this structure; no pool
operation writes any of these three fields. -/
structure World_Id where
  entities : List Nat
  alive_count : Nat
  avail_id : Nat
deriving DecidableEq, Repr

/-- The initial `World`. -/
def World_Id.empty : World_Id :=
  { entities := [], alive_count := 0, avail_id := null_entity_id }

/-- `World::generate_entity` (the identity-table effect): append
`make_handle(entity_count, 0)`. -/
def World_Id.generate_entity (w : World_Id) : Nat × World_Id :=
  let e := make_handle w.entities.length 0
  (e, { w with entities := w.entities ++ [e] })

/-- `World::recycle_entity`: pop the free-list head `avail_id`, link
`avail_id` to the next free slot stored in the popped entry's id field,
and make the slot live with the version stored in the entry. -/
def World_Id.recycle_entity (w : World_Id) : Nat × World_Id :=
  let cur_id := w.avail_id
  let stored := w.entities.getD cur_id 0
  let cur_version := get_entity_version stored
  let recycled := make_handle cur_id cur_version
  (recycled,
   { w with
     avail_id := get_entity_id stored
     entities := w.entities.set cur_id recycled })

/-- `World::new_entity`: bump `alive_count`, then generate a fresh slot
if the free list is empty, else recycle its head. -/
def World_Id.new_entity (w : World_Id) : Nat × World_Id :=
  let w1 := { w with alive_count := w.alive_count + 1 }
  if w1.avail_id = null_entity_id then w1.generate_entity else w1.recycle_entity

/-- `Entity::valid()` for a façade whose world pointer is this world:
`id < world->entity_count && world->entities[id] == handle`. -/
def World_Id.entity_valid (w : World_Id) (h : Nat) : Bool :=
  decide (get_entity_id h < w.entities.length) &&
    decide (w.entities.getD (get_entity_id h) 0 = h)

/-- `World::release_entity(e, desired)`. -/
def World_Id.release_entity (w : World_Id) (e : Nat) (desired : Nat) : World_Id :=
  let id := get_entity_id e
  { w with
    entities := w.entities.set id (make_handle w.avail_id desired)
    avail_id := id }

/-- `Entity::destroy()` after its assert (identity-table effect; the
pool-removal loop touches only component pools): release the slot with
version `version(handle) + 1` (u32 wrap-around) and decrement
`alive_count`. -/
def World_Id.destroy (w : World_Id) (h : Nat) : World_Id :=
  let nv := (get_entity_version h + 1) % idMod
  let w1 := w.release_entity h nv
  { w1 with alive_count := w1.alive_count - 1 }

/-- Identity-table operations: `new_entity()`, and `destroy()` on a
given handle. -/
inductive World_Op
  | wnew
  | wdestroy (h : Nat)
deriving DecidableEq, Repr

/-- One operation; `Entity::destroy` asserts validity, so destroying an
invalid handle aborts (`none`). -/
def world_step (w : World_Id) : World_Op → Option World_Id
  | World_Op.wnew => some w.new_entity.2
  | World_Op.wdestroy h => if w.entity_valid h then some (w.destroy h) else none

/-- Run a sequence of identity-table operations. -/
def world_run (ops : List World_Op) (w : World_Id) : Option World_Id :=
  List.foldlM world_step w ops

/-- The loop of `View::get_idx` starting at position `i`: first position
whose recorded type id matches, `0` if the scan falls off the end. -/
def get_idx_loop (tp : List Nat) (tid : Nat) (i : Nat) : Nat :=
  match tp with
  | [] => 0
  | x :: xs => if x = tid then i else get_idx_loop xs tid (i + 1)

/-- The `View` fields needed by `get<T>`: the recorded type ids
(`to_pool`, in the caller's order from `_new_view`), the resolved pools
in the same order, and the current entity. -/
structure View where
  to_pool : List Nat
  pools : List Component_Pool
  entity : Nat

/-- `View::get_idx(id)`. -/
def View.get_idx (v : View) (tid : Nat) : Nat := get_idx_loop v.to_pool tid 0

/-- `View::get<T>()`: read the current entity's payload from
`pools[get_idx(component_id(T))]`. -/
def View.get (v : View) (tid : Nat) : List Nat :=
  (v.pools.getD (v.get_idx tid) (Component_Pool.init 0 0)).get v.entity

theorem get_idx_loop_eq_zero {tp : List Nat} {tid : Nat} (htid : tid ∉ tp) :
    ∀ i, get_idx_loop tp tid i = 0 := by
  induction tp with
  | nil => intro i; rfl
  | cons x xs ih =>
    intro i
    simp only [List.mem_cons, not_or] at htid
    simp only [get_idx_loop]
    rw [if_neg (fun hx => htid.1 hx.symm), ih htid.2]

/-- A pool with `element_size = 2` built by 17 admissible `add`s (payload
of entity `i` is the byte pair `[i, 100 + i]`); capacity doubles
`0 → 8 → 16 → 32`. -/
def gcPool17 : Component_Pool :=
  (List.range 17).foldl (fun p i => p.add_write (make_handle i 0) [i, 100 + i] 0)
    (Component_Pool.init 0 2)

/-- `gcPool17` after removing the last eight entities: `count = 9`,
`capacity = 32 > 2 * 9`, so `collect_garbage` will shrink it. -/
def gcPool9 : Component_Pool :=
  (List.range 8).foldl (fun p k => p.remove (make_handle (16 - k) 0)) gcPool17

set_option maxRecDepth 100000 in
/-- C1.  The shrink step of `World::collect_garbage` evaluated at a
reachable pool with `element_size = 2`, `count = 9 > 8` and
`capacity = 32 > 2 * 9`: the capacity does become
`ceil(9, 8) = 16` and every resident entity still answers `has` true,
but the payload bytes are NOT all preserved — `mem_copy(new_alloc,
p->data, p->capacity)` copies only the new capacity in BYTES (16)
instead of `count * element_size` (18) bytes, so the entity stored at
packed index 8 loses its payload (`[8, 108]` before, `[0, 0]` after). -/
theorem collect_garbage_truncates_payload :
    gcPool9.wf ∧ gcPool9.count = 9 ∧ gcPool9.capacity = 32 ∧
    gcPool9.collect_garbage_pool.capacity = 16 ∧
    ((List.range 9).all fun i => gcPool9.collect_garbage_pool.has (make_handle i 0)) = true ∧
    gcPool9.get (make_handle 8 0) = [8, 108] ∧
    gcPool9.collect_garbage_pool.get (make_handle 8 0) = [0, 0] := by
  decide

/-- C5.  `new_entity` pops the most-recently-freed slot first (the free
list is LIFO): destroying a live entity sets `avail_id` to its slot, so
the next `new_entity` recycles exactly that slot with the bumped
version.  In particular, in a world with 10 fresh entities, destroying
the entity with slot 4 (handle `make_handle 4 0`) and then calling
`new_entity` yields slot 4 with version 1, and the old handle for slot 4
answers `valid()` false afterwards. -/
theorem new_entity_lifo_reuse :
    (∀ (w : World_Id) (h : Nat), w.entity_valid h = true →
      get_entity_id h ≠ null_entity_id →
      ((w.destroy h).new_entity).1 =
        make_handle (get_entity_id h) ((get_entity_version h + 1) % idMod)) ∧
    (world_run (List.replicate 10 World_Op.wnew ++
        [World_Op.wdestroy (make_handle 4 0)]) World_Id.empty).map
      (fun w => (get_entity_id w.new_entity.1, get_entity_version w.new_entity.1,
        w.new_entity.2.entity_valid (make_handle 4 0))) =
      some (4, 1, false) := by
  constructor
  · intro w h hvalid hnn
    rw [World_Id.entity_valid, Bool.and_eq_true, decide_eq_true_iff,
      decide_eq_true_iff] at hvalid
    have hstate : (w.destroy h).avail_id = get_entity_id h := rfl
    have hent : (w.destroy h).entities.getD (get_entity_id h) 0 =
        make_handle w.avail_id ((get_entity_version h + 1) % idMod) := by
      show (w.entities.set (get_entity_id h)
        (make_handle w.avail_id ((get_entity_version h + 1) % idMod))).getD
        (get_entity_id h) 0 = _
      exact getD_set_self _ _ _ _ hvalid.1
    simp only [World_Id.new_entity]
    rw [if_neg (by
      show ¬ ((w.destroy h).avail_id = null_entity_id)
      rw [hstate]
      exact hnn)]
    simp only [World_Id.recycle_entity]
    rw [show ({ w.destroy h with
        alive_count := (w.destroy h).alive_count + 1 } : World_Id).entities =
      (w.destroy h).entities from rfl]
    rw [hstate, hent, get_entity_version_make_handle]
    unfold make_handle idMod
    omega
  · decide

/-- C10.  For a type id `tid` not in the view's recorded type list,
`View::get_idx` falls through its scan and returns index 0, so
`View::get` does not fail: it silently reads the current entity's
payload from `pools[0]` — the pool of the first type listed at view
construction (`to_pool[0]`). -/
theorem view_get_unlisted_type_reads_first_pool (v : View) (tid : Nat)
    (hne : v.to_pool ≠ []) (hm : tid ∉ v.to_pool)
    (hc : ∀ i < v.to_pool.length,
      (v.pools.getD i (Component_Pool.init 0 0)).id = v.to_pool.getD i 0) :
    v.get_idx tid = 0 ∧
    v.get tid = (v.pools.getD 0 (Component_Pool.init 0 0)).get v.entity ∧
    (v.pools.getD 0 (Component_Pool.init 0 0)).id = v.to_pool.getD 0 0 := by
  have h0 : v.get_idx tid = 0 := get_idx_loop_eq_zero hm 0
  refine ⟨h0, ?_, ?_⟩
  · unfold View.get
    rw [h0]
  · exact hc 0 (List.length_pos.mpr hne)

/-- A concrete view over the single type id 5 whose pool holds entity 0
with payload `[42]`. -/
def viewOneType : View :=
  { to_pool := [5]
    pools := [(Component_Pool.init 5 1).add_write 0 [42] 0]
    entity := 0 }

theorem view_get_unlisted_type_reads_first_pool_witness :
    (viewOneType.to_pool ≠ [] ∧ (7 : Nat) ∉ viewOneType.to_pool ∧
      ∀ i < viewOneType.to_pool.length,
        (viewOneType.pools.getD i (Component_Pool.init 0 0)).id =
          viewOneType.to_pool.getD i 0) ∧
    (viewOneType.get_idx 7 = 0 ∧
      viewOneType.get 7 =
        (viewOneType.pools.getD 0 (Component_Pool.init 0 0)).get viewOneType.entity ∧
      (viewOneType.pools.getD 0 (Component_Pool.init 0 0)).id =
        viewOneType.to_pool.getD 0 0) :=
  ⟨⟨by decide, by decide, by decide⟩,
    view_get_unlisted_type_reads_first_pool viewOneType 7 (by decide) (by decide) (by decide)⟩

/-- What a reallocation site does with the old buffer: the entries it
pushes on the World's deferred-delete buffer and the buffers it releases
immediately. -/
structure Realloc_Obs where
  deferred : List Delete_Type
  freed : List Delete_Type
deriving DecidableEq, Repr

/-- The pool-array growth branch of `World::get_pool<T>`: when
`pool_count >= pool_capacity`, allocate the doubled array, copy the
pools over, and free the old array immediately iff
`iteration_depth <= 0`, otherwise push it on the deferred-delete buffer.
Returns the new capacity and the observation (the old array exists iff
`pool_capacity ≠ 0`). -/
def get_pool_grow (pool_count pool_capacity : Nat) (iteration_depth : Int) :
    Nat × Realloc_Obs :=
  if pool_count ≥ pool_capacity then
    let new_capacity := if pool_capacity < 8 then 8 else pool_capacity * 2
    let evs : List Delete_Type :=
      if pool_capacity ≠ 0 then [Delete_Type.component_pool] else []
    (new_capacity,
     if iteration_depth ≤ 0 then { deferred := [], freed := evs }
     else { deferred := evs, freed := [] })
  else (pool_capacity, { deferred := [], freed := [] })

/-- The identity-table growth branch of `World::generate_entity`: when
`entity_count >= entity_capacity` the table is reallocated and the old
buffer is released with an unconditional `delete[] entities` — the
source has no `iteration_depth` test at this site.  The depth argument
is accepted (the call runs at an arbitrary depth) and, like the source,
never consulted. -/
def generate_entity_realloc (entity_count entity_capacity : Nat)
    (iteration_depth : Int) : Nat × Realloc_Obs :=
  let _ := iteration_depth
  if entity_count ≥ entity_capacity then
    let new_capacity := if entity_capacity < 8 then 8 else entity_capacity * 2
    (new_capacity,
     { deferred := []
       freed := if entity_capacity ≠ 0 then [Delete_Type.entity_handle] else [] })
  else (entity_capacity, { deferred := [], freed := [] })

/-- C2 (amended).  While `iteration_depth > 0`, `Component_Pool::add`
frees nothing immediately: every buffer it replaces (payload `data`,
`sparse`, `dense`) is pushed on the deferred-delete buffer; likewise the
pool-array growth in `World::get_pool`.  (The identity table is the
exception — see the counterexample.) -/
theorem realloc_defers_while_iterating (p : Component_Pool) (e : Nat) (d : Int)
    (hd : 0 < d) :
    (p.add e d).freed = [] ∧
    (p.count ≥ p.capacity → p.capacity ≠ 0 →
      Delete_Type.u8 ∈ (p.add e d).deferred) ∧
    (get_entity_id e ≥ p.sparse.length → p.sparse.length ≠ 0 →
      Delete_Type.i64 ∈ (p.add e d).deferred) ∧
    (p.dense_count ≥ p.dense_capacity → p.dense_capacity ≠ 0 →
      Delete_Type.entity_handle ∈ (p.add e d).deferred) ∧
    (∀ pc cap : Nat, pc ≥ cap → cap ≠ 0 →
      (get_pool_grow pc cap d).2.freed = [] ∧
      (get_pool_grow pc cap d).2.deferred = [Delete_Type.component_pool]) := by
  have hnd : ¬ d ≤ 0 := not_le.mpr hd
  refine ⟨?_, ?_, ?_, ?_, ?_⟩
  · simp [Component_Pool.add, hnd]
  · intro h1 h2
    simp [Component_Pool.add, hnd, h1, h2]
  · intro h1 h2
    simp [Component_Pool.add, hnd, h1, h2]
  · intro h1 h2
    simp [Component_Pool.add, hnd, h1, h2]
  · intro pc cap h1 h2
    simp [get_pool_grow, hnd, h1, h2]

/-- A pool with all three buffers allocated and full: 8 admissible adds
of entities with slots 0–7, so `count = capacity = 8`,
`sparse.length = 8` and `dense_count = dense_capacity = 8`; adding slot
9 grows all three buffers. -/
def poolFull8 : Component_Pool :=
  (List.range 8).foldl (fun p i => p.add_write (make_handle i 0) [i] 0)
    (Component_Pool.init 0 1)

theorem realloc_defers_while_iterating_witness :
    ((0 : Int) < 1 ∧ poolFull8.count ≥ poolFull8.capacity ∧ poolFull8.capacity ≠ 0 ∧
      get_entity_id 9 ≥ poolFull8.sparse.length ∧ poolFull8.sparse.length ≠ 0 ∧
      poolFull8.dense_count ≥ poolFull8.dense_capacity ∧ poolFull8.dense_capacity ≠ 0) ∧
    ((poolFull8.add 9 1).freed = [] ∧
      Delete_Type.u8 ∈ (poolFull8.add 9 1).deferred ∧
      Delete_Type.i64 ∈ (poolFull8.add 9 1).deferred ∧
      Delete_Type.entity_handle ∈ (poolFull8.add 9 1).deferred ∧
      (get_pool_grow 8 8 1).2.freed = [] ∧
      (get_pool_grow 8 8 1).2.deferred = [Delete_Type.component_pool]) := by
  obtain ⟨a, b, c, dd, ee⟩ := realloc_defers_while_iterating poolFull8 9 1 (by decide)
  exact ⟨⟨by decide, by decide, by decide, by decide, by decide, by decide, by decide⟩,
    a, b (by decide) (by decide), c (by decide) (by decide), dd (by decide) (by decide),
    (ee 8 8 (by decide) (by decide)).1, (ee 8 8 (by decide) (by decide)).2⟩

/-- C2 counterexample: with a view active (`iteration_depth = 1`) and a
full identity table (`entity_count = entity_capacity = 8`),
`World::generate_entity` frees the old identity-table buffer
immediately rather than enqueueing it on the deferred-free buffer, so
the claim's list of deferred buffers is wrong about the World's
identity table. -/
theorem generate_entity_frees_identity_table_mid_iteration :
    (generate_entity_realloc 8 8 1).2.freed = [Delete_Type.entity_handle] ∧
    (generate_entity_realloc 8 8 1).2.deferred = [] ∧ (0 : Int) < 1 := by
  decide

/-- The World fields `View::valid` touches: the iteration depth, the
deferred-delete buffer, and a log of the frees actually performed. -/
structure World_Iter where
  iteration_depth : Int
  delete_buffer : List Delete_Type
  freed_log : List Delete_Type
deriving DecidableEq, Repr

/-- `World::commit_deletions`: perform every pending deferred free and
clear the buffer. -/
def World_Iter.commit_deletions (w : World_Iter) : World_Iter :=
  { w with delete_buffer := [], freed_log := w.freed_log ++ w.delete_buffer }

/-- `View::valid()`: report whether a current entity exists; whenever it
does not, decrement `iteration_depth` and, if the depth is now `<= 0`,
commit the pending deferred frees. -/
def view_valid (entity : Nat) (w : World_Iter) : Bool × World_Iter :=
  let valid := entity ≠ null_handle
  if valid then (true, w)
  else
    let w1 := { w with iteration_depth := w.iteration_depth - 1 }
    if w1.iteration_depth ≤ 0 then (false, w1.commit_deletions) else (false, w1)

/-- C3 (amended).  `View::valid` returns whether a current entity
exists and leaves the world untouched while one exists; EVERY call made
with the cursor exhausted (not only the first) decrements
`iteration_depth` by one, and commits the pending deferred frees exactly
when the decremented depth is `<= 0`.  In the standard iteration
pattern, where `valid()` is called exactly once after exhaustion, the
total decrement over the view's lifetime is therefore one. -/
theorem view_valid_decrements_on_exhaustion (entity : Nat) (w : World_Iter) :
    (view_valid entity w).1 = decide (entity ≠ null_handle) ∧
    (entity ≠ null_handle → (view_valid entity w).2 = w) ∧
    (entity = null_handle →
      (view_valid entity w).2.iteration_depth = w.iteration_depth - 1 ∧
      (w.iteration_depth - 1 ≤ 0 →
        (view_valid entity w).2.delete_buffer = [] ∧
        (view_valid entity w).2.freed_log = w.freed_log ++ w.delete_buffer) ∧
      (0 < w.iteration_depth - 1 →
        (view_valid entity w).2.delete_buffer = w.delete_buffer ∧
        (view_valid entity w).2.freed_log = w.freed_log)) := by
  by_cases he : entity = null_handle
  · by_cases hz : w.iteration_depth - 1 ≤ 0
    · refine ⟨?_, ?_, ?_⟩ <;>
        simp [view_valid, World_Iter.commit_deletions, he, hz] <;> omega
    · refine ⟨?_, ?_, ?_⟩ <;>
        simp [view_valid, World_Iter.commit_deletions, he, hz]
  · refine ⟨?_, ?_, ?_⟩ <;> simp [view_valid, he]

theorem view_valid_decrements_on_exhaustion_witness :
    (view_valid null_handle ⟨1, [Delete_Type.u8], []⟩).1 = false ∧
    (view_valid null_handle ⟨1, [Delete_Type.u8], []⟩).2.iteration_depth = 0 ∧
    (view_valid null_handle ⟨1, [Delete_Type.u8], []⟩).2.delete_buffer = [] ∧
    (view_valid null_handle ⟨1, [Delete_Type.u8], []⟩).2.freed_log = [Delete_Type.u8] := by
  obtain ⟨h1, _, h3⟩ :=
    view_valid_decrements_on_exhaustion null_handle ⟨1, [Delete_Type.u8], []⟩
  obtain ⟨hd, hc, _⟩ := h3 rfl
  refine ⟨by simpa using h1, by simpa using hd, ?_, ?_⟩
  · exact (hc (by decide)).1
  · simpa using (hc (by decide)).2

/-- C3 counterexample: the decrement does not happen only on the first
exhausted call.  Starting from `iteration_depth = 2` with the cursor
already exhausted, two `valid()` calls leave the depth at 0: the second
call decremented again, so the total decrement over a view's lifetime
is not always one. -/
theorem view_valid_double_call_decrements_twice :
    (view_valid null_handle (view_valid null_handle ⟨2, [], []⟩).2).2.iteration_depth = 0 ∧
    (0 : Int) ≠ 2 - 1 := by
  decide

theorem length_bytesWrite (l : List Nat) (off : Nat) (bs : List Nat)
    (h : off + bs.length ≤ l.length) : (bytesWrite l off bs).length = l.length := by
  unfold bytesWrite
  simp only [List.length_append, List.length_take, List.length_drop]
  omega

theorem getElem?_bytesWrite (l : List Nat) (off : Nat) (bs : List Nat) (i : Nat)
    (h : off + bs.length ≤ l.length) :
    (bytesWrite l off bs)[i]? =
      if i < off then l[i]? else if i < off + bs.length then bs[i - off]? else l[i]? := by
  unfold bytesWrite
  have hto : (l.take off).length = off := by
    simp only [List.length_take]
    omega
  rw [List.getElem?_append, List.getElem?_append, List.getElem?_drop]
  simp only [List.length_append, hto]
  split_ifs with h1 h2 <;> try omega
  · rw [List.getElem?_take, if_pos (by omega)]
  · rfl
  · congr 1
    omega

theorem get_region_bytesWrite_self (l : List Nat) (off : Nat) (bs : List Nat)
    (h : off + bs.length ≤ l.length) :
    ((bytesWrite l off bs).drop off).take bs.length = bs := by
  apply List.ext_getElem?
  intro n
  rw [List.getElem?_take]
  by_cases hn : n < bs.length
  · rw [if_pos hn, List.getElem?_drop, getElem?_bytesWrite _ _ _ _ h,
      if_neg (by omega), if_pos (by omega)]
    congr 1
    omega
  · rw [if_neg hn, eq_comm, List.getElem?_eq_none_iff]
    omega

theorem get_region_bytesWrite_of_disjoint (l : List Nat) (off : Nat) (bs : List Nat)
    (a k : Nat) (h : off + bs.length ≤ l.length)
    (hdisj : a + k ≤ off ∨ off + bs.length ≤ a) :
    ((bytesWrite l off bs).drop a).take k = (l.drop a).take k := by
  apply List.ext_getElem?
  intro n
  rw [List.getElem?_take, List.getElem?_take]
  by_cases hn : n < k
  · rw [if_pos hn, if_pos hn, List.getElem?_drop, List.getElem?_drop,
      getElem?_bytesWrite _ _ _ _ h]
    rcases hdisj with h1 | h2
    · rw [if_pos (by omega)]
    · rw [if_neg (by omega), if_neg (by omega)]
  · rw [if_neg hn, if_neg hn]

/-- C9.  `Entity::add` stores the payload (`*n = c`) before firing
`on_create`, so the pool state the hook observes already answers
`get(e) = c`; and `Component_Pool::remove` fires `on_destroy` before the
swap-and-pop, so the hook observes the argument pool unchanged — in
particular it can still read the removed entity's payload. -/
theorem hooks_observe_payload (p : Component_Pool) (e : Nat) (c : List Nat) (d : Int)
    (hwf : p.wf) (hlen : c.length = p.element_size) :
    (Entity.add_hook_state p e c d).get e = c ∧
    (∀ q : Component_Pool, ∀ f : Nat,
      (q.remove_traced f).hook_state = q ∧
      (q.remove_traced f).hook_state.get f = q.get f) := by
  obtain ⟨hd1, hd2, hd3, hd4, hd5, hd6, hd7⟩ := hwf
  refine ⟨?_, fun q f => ⟨rfl, rfl⟩⟩
  unfold Entity.add_hook_state Component_Pool.add_write Component_Pool.add
  simp only [Component_Pool.get, Component_Pool.get_by_idx, Component_Pool.sparse_idx]
  set eid := get_entity_id e with heid
  -- the sparse entry of `e` was just set to `dense_count = count`
  have hslen : eid < (if eid ≥ p.sparse.length
      then p.sparse ++ List.replicate (eid + 1 - p.sparse.length) (-1)
      else p.sparse).length := by
    split_ifs with hg
    · simp only [List.length_append, List.length_replicate]
      omega
    · omega
  rw [getD_set_self _ _ _ _ hslen]
  have htn : (Int.ofNat p.dense_count).toNat = p.count := by
    simp [hd2]
  rw [htn]
  -- the new data buffer has room for the payload at offset count * es
  have hcap : p.count < (if p.count ≥ p.capacity
      then (if p.capacity < 8 then 8 else p.capacity * 2) else p.capacity) := by
    split_ifs <;> omega
  set capacity1 := (if p.count ≥ p.capacity
      then (if p.capacity < 8 then 8 else p.capacity * 2) else p.capacity) with hcap1
  have hdlen : (if p.count ≥ p.capacity
      then p.data ++ List.replicate ((capacity1 - p.capacity) * p.element_size) 0
      else p.data).length = capacity1 * p.element_size := by
    split_ifs with hg
    · simp only [List.length_append, List.length_replicate, hd5]
      have : p.capacity ≤ capacity1 := by
        rw [hcap1]
        split_ifs <;> omega
      rw [← Nat.add_mul]
      congr 1
      omega
    · rw [hd5]
      have : capacity1 = p.capacity := by
        rw [hcap1, if_neg hg]
      rw [this]
  rw [← hlen] at hdlen
  rw [← hlen]
  exact get_region_bytesWrite_self _ _ _ (by
    rw [hdlen]
    calc p.count * c.length + c.length
        = (p.count + 1) * c.length := by ring
      _ ≤ capacity1 * c.length := Nat.mul_le_mul_right _ (by omega))

theorem hooks_observe_payload_witness :
    ((Component_Pool.init 0 2).wf ∧ ([9, 9] : List Nat).length = 2) ∧
    (Entity.add_hook_state (Component_Pool.init 0 2) 3 [9, 9] 0).get 3 = [9, 9] :=
  ⟨⟨by decide, by decide⟩,
    (hooks_observe_payload (Component_Pool.init 0 2) 3 [9, 9] 0 (by decide) (by decide)).1⟩

theorem wf_id_inj {p : Component_Pool} (hwf : p.wf) {i j : Nat}
    (hi : i < p.dense_count) (hj : j < p.dense_count)
    (hid : get_entity_id (p.dense.getD i 0) = get_entity_id (p.dense.getD j 0)) :
    i = j := by
  obtain ⟨-, -, -, -, -, hd6, -⟩ := hwf
  have h1 := (hd6 i hi).2
  have h2 := (hd6 j hj).2
  rw [hid, h2] at h1
  exact (Int.ofNat_inj.mp h1).symm

theorem wf_has_index {p : Component_Pool} (hwf : p.wf) {e : Nat}
    (hhas : p.has e = true) :
    ∃ k, k < p.dense_count ∧ get_entity_id (p.dense.getD k 0) = get_entity_id e ∧
      p.sparse.getD (get_entity_id e) (-1) = Int.ofNat k := by
  obtain ⟨-, -, -, -, -, hd6, hd7⟩ := hwf
  rw [Component_Pool.has, Bool.and_eq_true, decide_eq_true_iff, decide_eq_true_iff] at hhas
  obtain ⟨k, hk, hkid⟩ := hd7 (get_entity_id e) hhas.1 hhas.2
  refine ⟨k, hk, hkid, ?_⟩
  have := (hd6 k hk).2
  rw [hkid] at this
  exact this

theorem wf_mem_index {p : Component_Pool} (hwf : p.wf) {e : Nat} (he : e ∈ p.dense) :
    ∃ k, k < p.dense_count ∧ p.dense.getD k 0 = e ∧
      p.sparse.getD (get_entity_id e) (-1) = Int.ofNat k := by
  obtain ⟨k, hk, hke⟩ := List.getElem_of_mem he
  have hgd : p.dense.getD k 0 = e := by
    rw [List.getD_eq_getElem _ _ hk, hke]
  have hk' : k < p.dense_count := hwf.1 ▸ hk
  refine ⟨k, hk', hgd, ?_⟩
  have := (hwf.2.2.2.2.2.1 k hk').2
  rw [hgd] at this
  exact this

theorem wf_add_write {p : Component_Pool} {e : Nat} {bs : List Nat} (d : Int)
    (hwf : p.wf) (hhas : p.has e = false) (hlen : bs.length = p.element_size) :
    (p.add_write e bs d).wf := by
  obtain ⟨hd1, hd2, hd3, hd4, hd5, hd6, hd7⟩ := hwf
  have hhas' : get_entity_id e < p.sparse.length →
      p.sparse.getD (get_entity_id e) (-1) = -1 := by
    intro h1
    by_contra h2
    have ht : p.has e = true := by
      rw [Component_Pool.has, Bool.and_eq_true, decide_eq_true_iff, decide_eq_true_iff]
      exact ⟨h1, h2⟩
    rw [ht] at hhas
    exact absurd hhas (by simp)
  set eid := get_entity_id e with heid
  set sparse1 := (if eid ≥ p.sparse.length
      then p.sparse ++ List.replicate (eid + 1 - p.sparse.length) (-1)
      else p.sparse) with hs1
  have hs1len : p.sparse.length ≤ sparse1.length ∧ eid < sparse1.length := by
    rw [hs1]
    split_ifs with hg
    · simp only [List.length_append, List.length_replicate]
      omega
    · omega
  have hs1at : ∀ j < p.sparse.length, sparse1.getD j (-1) = p.sparse.getD j (-1) := by
    intro j hj
    rw [hs1]
    split_ifs with hg
    · exact getD_append_lt _ _ _ _ hj
    · rfl
  have hs1out : ∀ j, p.sparse.length ≤ j → sparse1.getD j (-1) = -1 := by
    intro j hj
    rw [hs1]
    split_ifs with hg
    · rw [getD_append_ge _ _ _ _ hj]
      exact getD_replicate _ _ _
    · exact List.getD_eq_default _ _ hj
  have hnewid : ∀ i < p.dense_count, get_entity_id (p.dense.getD i 0) ≠ eid := by
    intro i hi hcontra
    have h6 := hd6 i hi
    by_cases hin : eid < p.sparse.length
    · have := hhas' hin
      rw [hcontra] at h6
      rw [h6.2] at this
      exact absurd this (by simp)
    · rw [hcontra] at h6
      omega
  refine ⟨?_, ?_, ?_, ?_, ?_, ?_, ?_⟩
  · show (p.dense ++ [e]).length = p.dense_count + 1
    simp [hd1]
  · show p.count + 1 = p.dense_count + 1
    omega
  · show p.count + 1 ≤
      (if p.count ≥ p.capacity then (if p.capacity < 8 then 8 else p.capacity * 2)
        else p.capacity)
    split_ifs <;> omega
  · show p.dense_count + 1 ≤
      (if p.dense_count ≥ p.dense_capacity
        then (if p.dense_capacity < 8 then 8 else p.dense_capacity * 2)
        else p.dense_capacity)
    split_ifs <;> omega
  · show (bytesWrite
        (if p.count ≥ p.capacity
          then p.data ++ List.replicate
            (((if p.count ≥ p.capacity
                then (if p.capacity < 8 then 8 else p.capacity * 2)
                else p.capacity) - p.capacity) * p.element_size) 0
          else p.data)
        (p.count * p.element_size) bs).length =
      (if p.count ≥ p.capacity then (if p.capacity < 8 then 8 else p.capacity * 2)
        else p.capacity) * p.element_size
    have hdlen : (if p.count ≥ p.capacity
        then p.data ++ List.replicate
          (((if p.count ≥ p.capacity
              then (if p.capacity < 8 then 8 else p.capacity * 2)
              else p.capacity) - p.capacity) * p.element_size) 0
        else p.data).length =
        (if p.count ≥ p.capacity then (if p.capacity < 8 then 8 else p.capacity * 2)
          else p.capacity) * p.element_size := by
      split_ifs with hg h8
      · simp only [List.length_append, List.length_replicate, hd5]
        rw [← Nat.add_mul]
        congr 1
        omega
      · simp only [List.length_append, List.length_replicate, hd5]
        rw [← Nat.add_mul]
        congr 1
        omega
      · exact hd5
    rw [length_bytesWrite _ _ _ (by
      rw [hdlen, hlen]
      have hcl : p.count <
          (if p.count ≥ p.capacity then (if p.capacity < 8 then 8 else p.capacity * 2)
            else p.capacity) := by
        split_ifs <;> omega
      calc p.count * p.element_size + p.element_size
          = (p.count + 1) * p.element_size := by ring
        _ ≤ _ := Nat.mul_le_mul_right _ (by omega)), hdlen]
  · show ∀ i < p.dense_count + 1,
      get_entity_id ((p.dense ++ [e]).getD i 0) <
        (sparse1.set eid (Int.ofNat p.dense_count)).length ∧
      (sparse1.set eid (Int.ofNat p.dense_count)).getD
        (get_entity_id ((p.dense ++ [e]).getD i 0)) (-1) = Int.ofNat i
    intro i hi
    rw [List.length_set]
    by_cases hilt : i < p.dense_count
    · have hdi : (p.dense ++ [e]).getD i 0 = p.dense.getD i 0 :=
        getD_append_lt _ _ _ _ (by omega)
      rw [hdi]
      have h6 := hd6 i hilt
      have hne := hnewid i hilt
      refine ⟨by omega, ?_⟩
      rw [getD_set_ne _ _ _ (fun hx => hne hx.symm), hs1at _ h6.1, h6.2]
    · have hieq : i = p.dense_count := by omega
      have hdi : (p.dense ++ [e]).getD i 0 = e := by
        rw [hieq, ← hd1]
        exact getD_snoc_self _ _ _
      rw [hdi, ← heid, hieq]
      exact ⟨hs1len.2, getD_set_self _ _ _ _ hs1len.2⟩
  · show ∀ j < (sparse1.set eid (Int.ofNat p.dense_count)).length,
      (sparse1.set eid (Int.ofNat p.dense_count)).getD j (-1) ≠ -1 →
      ∃ i < p.dense_count + 1, get_entity_id ((p.dense ++ [e]).getD i 0) = j
    intro j hj hne
    by_cases hje : j = eid
    · refine ⟨p.dense_count, by omega, ?_⟩
      rw [← hd1, getD_snoc_self, hje, heid]
    · rw [getD_set_ne _ _ _ (fun hx => hje hx.symm)] at hne
      by_cases hjlen : j < p.sparse.length
      · rw [hs1at _ hjlen] at hne
        obtain ⟨i, hi, hid⟩ := hd7 j hjlen hne
        exact ⟨i, by omega, by rw [getD_append_lt _ _ _ _ (by omega), hid]⟩
      · exact absurd (hs1out j (by omega)) hne

theorem remove_eq {p : Component_Pool} {e : Nat} {k : Nat}
    (hkpos : p.sparse.getD (get_entity_id e) (-1) = Int.ofNat k) :
    p.remove e = { p with
      sparse := (p.sparse.set (get_entity_id (p.dense.getD (p.dense_count - 1) 0))
        (Int.ofNat k)).set (get_entity_id e) (-1)
      dense := (p.dense.set k (p.dense.getD (p.dense_count - 1) 0)).take
        (p.dense_count - 1)
      data := bytesWrite p.data (k * p.element_size)
        ((p.data.drop ((p.count - 1) * p.element_size)).take p.element_size)
      dense_count := p.dense_count - 1
      count := p.count - 1 } := by
  simp only [Component_Pool.remove, hkpos]
  rfl

theorem wf_remove {p : Component_Pool} {e : Nat} (hwf : p.wf) (hhas : p.has e = true) :
    (p.remove e).wf := by
  obtain ⟨k, hk, hkid, hkpos⟩ := wf_has_index hwf hhas
  have ⟨hd1, hd2, hd3, hd4, hd5, hd6, hd7⟩ := hwf
  rw [remove_eq hkpos]
  have hn1 : p.dense_count - 1 < p.dense_count := by omega
  have h6last := hd6 (p.dense_count - 1) hn1
  have h6k := hd6 k hk
  refine ⟨?_, ?_, ?_, ?_, ?_, ?_, ?_⟩
  · show ((p.dense.set k (p.dense.getD (p.dense_count - 1) 0)).take
        (p.dense_count - 1)).length = p.dense_count - 1
    simp only [List.length_take, List.length_set, hd1]
    omega
  · show p.count - 1 = p.dense_count - 1
    omega
  · show p.count - 1 ≤ p.capacity
    omega
  · show p.dense_count - 1 ≤ p.dense_capacity
    omega
  · show (bytesWrite p.data (k * p.element_size)
        ((p.data.drop ((p.count - 1) * p.element_size)).take p.element_size)).length =
      p.capacity * p.element_size
    have hlb : ((p.data.drop ((p.count - 1) * p.element_size)).take
        p.element_size).length = p.element_size := by
      simp only [List.length_take, List.length_drop, hd5]
      have : (p.count - 1) * p.element_size + p.element_size ≤
          p.capacity * p.element_size := by
        calc (p.count - 1) * p.element_size + p.element_size
            = (p.count - 1 + 1) * p.element_size := by ring
          _ ≤ p.capacity * p.element_size := Nat.mul_le_mul_right _ (by omega)
      omega
    rw [length_bytesWrite _ _ _ (by
      rw [hlb, hd5]
      calc k * p.element_size + p.element_size
          = (k + 1) * p.element_size := by ring
        _ ≤ p.capacity * p.element_size := Nat.mul_le_mul_right _ (by omega)), hd5]
  · show ∀ i < p.dense_count - 1,
      get_entity_id (((p.dense.set k (p.dense.getD (p.dense_count - 1) 0)).take
          (p.dense_count - 1)).getD i 0) <
        ((p.sparse.set (get_entity_id (p.dense.getD (p.dense_count - 1) 0))
          (Int.ofNat k)).set (get_entity_id e) (-1)).length ∧
      ((p.sparse.set (get_entity_id (p.dense.getD (p.dense_count - 1) 0))
          (Int.ofNat k)).set (get_entity_id e) (-1)).getD
        (get_entity_id (((p.dense.set k (p.dense.getD (p.dense_count - 1) 0)).take
          (p.dense_count - 1)).getD i 0)) (-1) = Int.ofNat i
    intro i hi
    rw [getD_take_lt _ _ _ _ hi]
    simp only [List.length_set]
    by_cases hik : i = k
    · rw [hik, getD_set_self _ _ _ _ (by rw [hd1]; omega)]
      have hoe : get_entity_id (p.dense.getD (p.dense_count - 1) 0) ≠
          get_entity_id e := by
        intro hcontra
        rw [← hkid] at hcontra
        have := wf_id_inj hwf hn1 hk hcontra
        omega
      refine ⟨h6last.1, ?_⟩
      rw [getD_set_ne _ _ _ (fun hx => hoe hx.symm),
        getD_set_self _ _ _ _ h6last.1]
    · rw [getD_set_ne _ _ _ (fun hx => hik hx.symm)]
      have h6i := hd6 i (by omega)
      have hie : get_entity_id (p.dense.getD i 0) ≠ get_entity_id e := by
        intro hcontra
        rw [← hkid] at hcontra
        exact hik (wf_id_inj hwf (by omega) hk hcontra)
      have hio : get_entity_id (p.dense.getD i 0) ≠
          get_entity_id (p.dense.getD (p.dense_count - 1) 0) := by
        intro hcontra
        have := wf_id_inj hwf (by omega) hn1 hcontra
        omega
      refine ⟨h6i.1, ?_⟩
      rw [getD_set_ne _ _ _ (fun hx => hie hx.symm),
        getD_set_ne _ _ _ (fun hx => hio hx.symm), h6i.2]
  · show ∀ j < ((p.sparse.set (get_entity_id (p.dense.getD (p.dense_count - 1) 0))
          (Int.ofNat k)).set (get_entity_id e) (-1)).length,
      ((p.sparse.set (get_entity_id (p.dense.getD (p.dense_count - 1) 0))
          (Int.ofNat k)).set (get_entity_id e) (-1)).getD j (-1) ≠ -1 →
      ∃ i < p.dense_count - 1,
        get_entity_id (((p.dense.set k (p.dense.getD (p.dense_count - 1) 0)).take
          (p.dense_count - 1)).getD i 0) = j
    intro j hj hne
    simp only [List.length_set] at hj
    by_cases hje : j = get_entity_id e
    · rw [hje, getD_set_self _ _ _ _ (by rw [List.length_set]; exact hkid ▸ h6k.1)]
        at hne
      exact absurd rfl hne
    · rw [getD_set_ne _ _ _ (fun hx => hje hx.symm)] at hne
      by_cases hjo : j = get_entity_id (p.dense.getD (p.dense_count - 1) 0)
      · have hkn : k ≠ p.dense_count - 1 := by
          intro hcontra
          apply hje
          rw [hjo, ← hcontra, hkid]
        refine ⟨k, by omega, ?_⟩
        rw [getD_take_lt _ _ _ _ (by omega),
          getD_set_self _ _ _ _ (by rw [hd1]; omega), hjo]
      · rw [getD_set_ne _ _ _ (fun hx => hjo hx.symm)] at hne
        obtain ⟨i, hi, hid⟩ := hd7 j hj hne
        have hik2 : i ≠ k := by
          intro hcontra
          rw [hcontra, hkid] at hid
          exact hje hid.symm
        have hin : i ≠ p.dense_count - 1 := by
          intro hcontra
          rw [hcontra] at hid
          exact hjo hid.symm
        refine ⟨i, by omega, ?_⟩
        rw [getD_take_lt _ _ _ _ (by omega),
          getD_set_ne _ _ _ (fun hx => hik2 hx.symm), hid]

/-- C6.  For a well-formed pool and an entity `e` resident in it,
`Component_Pool::remove(e)` makes `has(e)` false, while every other
resident entity is still present and its payload bytes are unchanged —
including the entity that was stored last in the dense array, whose
payload the swap-and-pop moves byte-for-byte into the freed packed
slot. -/
theorem remove_frame (p : Component_Pool) (e : Nat) (hwf : p.wf) (he : e ∈ p.dense) :
    (p.remove e).has e = false ∧
    ∀ e2 ∈ p.dense, e2 ≠ e →
      (p.remove e).has e2 = true ∧ (p.remove e).get e2 = p.get e2 := by
  obtain ⟨k, hk, hke, hkpos⟩ := wf_mem_index hwf he
  have ⟨hd1, hd2, hd3, hd4, hd5, hd6, hd7⟩ := hwf
  have h6k := hd6 k hk
  rw [hke] at h6k
  have hn1 : p.dense_count - 1 < p.dense_count := by omega
  have h6last := hd6 (p.dense_count - 1) hn1
  rw [remove_eq hkpos]
  have hlb : ((p.data.drop ((p.count - 1) * p.element_size)).take
      p.element_size).length = p.element_size := by
    simp only [List.length_take, List.length_drop, hd5]
    have : (p.count - 1) * p.element_size + p.element_size ≤
        p.capacity * p.element_size := by
      calc (p.count - 1) * p.element_size + p.element_size
          = (p.count - 1 + 1) * p.element_size := by ring
        _ ≤ p.capacity * p.element_size := Nat.mul_le_mul_right _ (by omega)
    omega
  have hbound : k * p.element_size +
      ((p.data.drop ((p.count - 1) * p.element_size)).take p.element_size).length ≤
      p.data.length := by
    rw [hlb, hd5]
    calc k * p.element_size + p.element_size
        = (k + 1) * p.element_size := by ring
      _ ≤ p.capacity * p.element_size := Nat.mul_le_mul_right _ (by omega)
  constructor
  · show Component_Pool.has _ e = false
    simp only [Component_Pool.has]
    rw [getD_set_self _ _ _ _ (by rw [List.length_set]; exact h6k.1)]
    simp
  · intro e2 he2 hne2
    obtain ⟨j, hj, hje2, hjpos⟩ := wf_mem_index hwf he2
    have h6j := hd6 j hj
    rw [hje2] at h6j
    have hjk : j ≠ k := by
      intro hcontra
      exact hne2 (by rw [← hje2, hcontra, hke])
    have hidne : get_entity_id e2 ≠ get_entity_id e := by
      intro hcontra
      apply hjk
      apply wf_id_inj hwf hj hk
      rw [hje2, hke, hcontra]
    by_cases hjl : j = p.dense_count - 1
    · -- `e2` is the last dense entry: it moves to packed index `k`
      have hoide : get_entity_id (p.dense.getD (p.dense_count - 1) 0) =
          get_entity_id e2 := by
        rw [← hjl, hje2]
      have hsp2 : ((p.sparse.set
          (get_entity_id (p.dense.getD (p.dense_count - 1) 0)) (Int.ofNat k)).set
          (get_entity_id e) (-1)).getD (get_entity_id e2) (-1) = Int.ofNat k := by
        rw [getD_set_ne _ _ _ (fun hx => hidne hx.symm), ← hoide,
          getD_set_self _ _ _ _ h6last.1]
      constructor
      · simp only [Component_Pool.has]
        rw [hsp2]
        simp only [List.length_set]
        have : get_entity_id e2 < p.sparse.length := h6j.1
        simp [this]
      · simp only [Component_Pool.get, Component_Pool.get_by_idx,
          Component_Pool.sparse_idx, hsp2, hjpos, toNat_ofNat]
        have hself := get_region_bytesWrite_self p.data (k * p.element_size)
          ((p.data.drop ((p.count - 1) * p.element_size)).take p.element_size)
          hbound
        rw [hlb] at hself
        rw [hself, hjl, hd2]
    · -- `e2` keeps its packed index `j`, disjoint from the moved slot
      have hjn : j < p.dense_count - 1 := by omega
      have hido : get_entity_id e2 ≠
          get_entity_id (p.dense.getD (p.dense_count - 1) 0) := by
        intro hcontra
        apply hjl
        apply wf_id_inj hwf hj hn1
        rw [hje2, hcontra]
      have hsp2 : ((p.sparse.set
          (get_entity_id (p.dense.getD (p.dense_count - 1) 0)) (Int.ofNat k)).set
          (get_entity_id e) (-1)).getD (get_entity_id e2) (-1) = Int.ofNat j := by
        rw [getD_set_ne _ _ _ (fun hx => hidne hx.symm),
          getD_set_ne _ _ _ (fun hx => hido hx.symm), hjpos]
      constructor
      · simp only [Component_Pool.has]
        rw [hsp2]
        simp only [List.length_set]
        have : get_entity_id e2 < p.sparse.length := h6j.1
        simp [this]
      · simp only [Component_Pool.get, Component_Pool.get_by_idx,
          Component_Pool.sparse_idx, hsp2, hjpos, toNat_ofNat]
        apply get_region_bytesWrite_of_disjoint _ _ _ _ _ hbound
        rw [hlb]
        rcases Nat.lt_or_ge j k with hlt | hge
        · left
          calc j * p.element_size + p.element_size
              = (j + 1) * p.element_size := by ring
            _ ≤ k * p.element_size := Nat.mul_le_mul_right _ (by omega)
        · right
          calc k * p.element_size + p.element_size
              = (k + 1) * p.element_size := by ring
            _ ≤ j * p.element_size := Nat.mul_le_mul_right _ (by omega)

/-- A two-entity pool for the C6 witness. -/
def poolTwo : Component_Pool :=
  ((Component_Pool.init 0 2).add_write (make_handle 1 0) [10, 11] 0).add_write
    (make_handle 2 0) [20, 21] 0

theorem remove_frame_witness :
    (poolTwo.wf ∧ make_handle 1 0 ∈ poolTwo.dense) ∧
    ((poolTwo.remove (make_handle 1 0)).has (make_handle 1 0) = false ∧
      ∀ e2 ∈ poolTwo.dense, e2 ≠ make_handle 1 0 →
        (poolTwo.remove (make_handle 1 0)).has e2 = true ∧
        (poolTwo.remove (make_handle 1 0)).get e2 = poolTwo.get e2) :=
  ⟨⟨by decide, by decide⟩,
    remove_frame poolTwo (make_handle 1 0) (by decide) (by decide)⟩

theorem wf_pool_step {p q : Component_Pool} (hwf : p.wf) {op : Pool_Op}
    (hstep : pool_step p op = some q) : q.wf := by
  cases op with
  | padd e c =>
    simp only [pool_step] at hstep
    split_ifs at hstep with hcond
    cases hstep
    exact wf_add_write 0 hwf (by simpa using hcond.1) hcond.2
  | premove e =>
    simp only [pool_step] at hstep
    split_ifs at hstep with hcond
    cases hstep
    exact wf_remove hwf hcond

theorem wf_pool_run : ∀ (ops : List Pool_Op) (p q : Component_Pool), p.wf →
    pool_run ops p = some q → q.wf := by
  intro ops
  induction ops with
  | nil =>
    intro p q hwf h
    simp only [pool_run, List.foldlM_nil] at h
    cases h
    exact hwf
  | cons op ops ih =>
    intro p q hwf h
    simp only [pool_run, List.foldlM_cons] at h
    cases hstep : pool_step p op with
    | none => rw [hstep] at h; cases h
    | some r =>
      rw [hstep] at h
      exact ih r q (wf_pool_step hwf hstep) h

theorem wf_init (type_id es : Nat) : (Component_Pool.init type_id es).wf := by
  refine ⟨rfl, rfl, le_refl _, le_refl _, by simp [Component_Pool.init], ?_, ?_⟩
  · intro i hi
    exact absurd hi (by simp [Component_Pool.init])
  · intro j hj
    exact absurd hj (by simp [Component_Pool.init])

/-- C7.  Every pool reachable from a fresh pool by admissible operations
satisfies the sparse-set invariant: (P3) for every packed index
`i < n`, `sparse[slot(dense[i])] = i`; and (P2) for every entity `e`
present in the pool, `sparse[slot(e)]` is in `[0, n)` and
`dense[sparse[slot(e)]] = e`. -/
theorem sparse_set_invariant_holds (es : Nat) (ops : List Pool_Op)
    (p : Component_Pool) (hrun : pool_run ops (Component_Pool.init 0 es) = some p) :
    (∀ i < p.dense_count,
      p.sparse.getD (get_entity_id (p.dense.getD i 0)) (-1) = Int.ofNat i) ∧
    (∀ e ∈ p.dense,
      0 ≤ p.sparse.getD (get_entity_id e) (-1) ∧
      (p.sparse.getD (get_entity_id e) (-1)).toNat < p.dense_count ∧
      p.dense.getD (p.sparse.getD (get_entity_id e) (-1)).toNat 0 = e) := by
  have hwf : p.wf := wf_pool_run ops _ p (wf_init 0 es) hrun
  constructor
  · intro i hi
    exact (hwf.2.2.2.2.2.1 i hi).2
  · intro e hmem
    obtain ⟨k, hk, hke, hkpos⟩ := wf_mem_index hwf hmem
    rw [hkpos, toNat_ofNat]
    exact ⟨Int.ofNat_nonneg k, hk, hke⟩

theorem sparse_set_invariant_holds_witness :
    (pool_run [Pool_Op.padd (make_handle 5 0) [1, 2],
        Pool_Op.padd (make_handle 9 0) [3, 4],
        Pool_Op.premove (make_handle 5 0)] (Component_Pool.init 0 2) =
      some ((((Component_Pool.init 0 2).add_write (make_handle 5 0) [1, 2] 0).add_write
        (make_handle 9 0) [3, 4] 0).remove (make_handle 5 0))) ∧
    ((∀ i < ((((Component_Pool.init 0 2).add_write (make_handle 5 0) [1, 2] 0).add_write
        (make_handle 9 0) [3, 4] 0).remove (make_handle 5 0)).dense_count,
      ((((Component_Pool.init 0 2).add_write (make_handle 5 0) [1, 2] 0).add_write
        (make_handle 9 0) [3, 4] 0).remove (make_handle 5 0)).sparse.getD
        (get_entity_id (((((Component_Pool.init 0 2).add_write (make_handle 5 0)
          [1, 2] 0).add_write (make_handle 9 0) [3, 4] 0).remove
          (make_handle 5 0)).dense.getD i 0)) (-1) = Int.ofNat i) ∧
    (∀ e ∈ ((((Component_Pool.init 0 2).add_write (make_handle 5 0) [1, 2] 0).add_write
        (make_handle 9 0) [3, 4] 0).remove (make_handle 5 0)).dense,
      0 ≤ ((((Component_Pool.init 0 2).add_write (make_handle 5 0) [1, 2] 0).add_write
        (make_handle 9 0) [3, 4] 0).remove (make_handle 5 0)).sparse.getD
        (get_entity_id e) (-1) ∧
      (((((Component_Pool.init 0 2).add_write (make_handle 5 0) [1, 2] 0).add_write
        (make_handle 9 0) [3, 4] 0).remove (make_handle 5 0)).sparse.getD
        (get_entity_id e) (-1)).toNat <
        ((((Component_Pool.init 0 2).add_write (make_handle 5 0) [1, 2] 0).add_write
          (make_handle 9 0) [3, 4] 0).remove (make_handle 5 0)).dense_count ∧
      ((((Component_Pool.init 0 2).add_write (make_handle 5 0) [1, 2] 0).add_write
        (make_handle 9 0) [3, 4] 0).remove (make_handle 5 0)).dense.getD
        (((((Component_Pool.init 0 2).add_write (make_handle 5 0) [1, 2] 0).add_write
          (make_handle 9 0) [3, 4] 0).remove (make_handle 5 0)).sparse.getD
          (get_entity_id e) (-1)).toNat 0 = e)) :=
  ⟨by decide,
    sparse_set_invariant_holds 2 [Pool_Op.padd (make_handle 5 0) [1, 2],
      Pool_Op.padd (make_handle 9 0) [3, 4],
      Pool_Op.premove (make_handle 5 0)] _ (by decide)⟩

theorem get_entity_version_lt (x : Nat) : get_entity_version x < idMod := by
  unfold get_entity_version idMod
  omega

/-- The number of `destroy` operations in `ops` aimed at slot `s`. -/
def destroys_at (s : Nat) (ops : List World_Op) : Nat :=
  ops.countP (fun op => match op with
    | World_Op.wnew => false
    | World_Op.wdestroy h => decide (get_entity_id h = s))

/-- Tracking the version field of one slot through a run: `recycle` keeps
the stored version, `generate` appends elsewhere, and each executed
`destroy` of slot `s` bumps the stored version by one modulo `2^32`. -/
theorem version_field_run : ∀ (ops : List World_Op) (w w' : World_Id) (s v : Nat),
    s < w.entities.length →
    get_entity_version (w.entities.getD s 0) = v →
    world_run ops w = some w' →
    s < w'.entities.length ∧
    get_entity_version (w'.entities.getD s 0) = (v + destroys_at s ops) % idMod := by
  intro ops
  induction ops with
  | nil =>
    intro w w' s v hs hv hrun
    simp only [world_run, List.foldlM_nil] at hrun
    cases hrun
    refine ⟨hs, ?_⟩
    simp only [destroys_at, List.countP_nil]
    rw [Nat.add_zero, Nat.mod_eq_of_lt (hv ▸ get_entity_version_lt _)]
    exact hv
  | cons op ops ih =>
    intro w w' s v hs hv hrun
    simp only [world_run, List.foldlM_cons] at hrun
    cases hstep : world_step w op with
    | none => rw [hstep] at hrun; cases hrun
    | some w1 =>
      rw [hstep] at hrun
      have hv' : v < idMod := hv ▸ get_entity_version_lt _
      have hmid : s < w1.entities.length ∧
          get_entity_version (w1.entities.getD s 0) =
            (v + destroys_at s [op]) % idMod := by
        cases op with
        | wnew =>
          have hc : destroys_at s [World_Op.wnew] = 0 := by
            simp [destroys_at]
          rw [hc, Nat.add_zero, Nat.mod_eq_of_lt hv']
          simp only [world_step, Option.some_inj] at hstep
          rw [← hstep]
          simp only [World_Id.new_entity]
          split_ifs with havail
          · refine ⟨?_, ?_⟩
            · simp only [World_Id.generate_entity, List.length_append,
                List.length_singleton]
              omega
            · simp only [World_Id.generate_entity]
              rw [getD_append_lt _ _ _ _ hs, hv]
          · refine ⟨?_, ?_⟩
            · simp only [World_Id.recycle_entity, List.length_set]
              exact hs
            · simp only [World_Id.recycle_entity]
              by_cases hcur : w.avail_id = s
              · rw [hcur, getD_set_self _ _ _ _ hs, hv,
                  get_entity_version_make_handle, Nat.mod_eq_of_lt hv']
              · rw [getD_set_ne _ _ _ hcur, hv]
        | wdestroy h =>
          simp only [world_step] at hstep
          split_ifs at hstep with hvalid
          cases hstep
          simp only [World_Id.destroy, World_Id.release_entity]
          by_cases hts : get_entity_id h = s
          · have hstored : w.entities.getD s 0 = h := by
              rw [World_Id.entity_valid, Bool.and_eq_true, decide_eq_true_iff,
                decide_eq_true_iff] at hvalid
              rw [← hts]
              exact hvalid.2
            have hvh : get_entity_version h = v := by
              rw [← hstored]
              exact hv
            have hc : destroys_at s [World_Op.wdestroy h] = 1 := by
              simp [destroys_at, hts]
            rw [hc, hts]
            refine ⟨by rw [List.length_set]; exact hs, ?_⟩
            rw [getD_set_self _ _ _ _ hs, get_entity_version_make_handle, hvh]
            unfold idMod
            omega
          · have hc : destroys_at s [World_Op.wdestroy h] = 0 := by
              simp [destroys_at, hts]
            refine ⟨by rw [List.length_set]; exact hs, ?_⟩
            rw [getD_set_ne _ _ _ hts, hv, hc]
            unfold idMod at hv' ⊢
            omega
      obtain ⟨hs1, hv1⟩ := hmid
      obtain ⟨hs2, hv2⟩ := ih w1 w' s _ hs1 hv1 hrun
      refine ⟨hs2, ?_⟩
      rw [hv2]
      have hcons : destroys_at s (op :: ops) =
          destroys_at s ops + destroys_at s [op] := by
        simp [destroys_at, List.countP_cons]
      rw [hcons]
      unfold idMod
      omega

/-- C4 (amended).  For a live handle `h`, after `destroy(h)` the façade
`valid()` on `h` is false and stays false across every subsequent
admissible operation sequence in which slot `slot(h)` is destroyed fewer
than `2^32 - 1` further times: each destroy bumps the slot's stored
32-bit version (modulo `2^32`) and `valid` compares the full handle, so
only a full wrap of the version counter can make the stale handle match
again (see the counterexample for the wrap). -/
theorem destroyed_handle_invalid (w : World_Id) (h : Nat) (ops : List World_Op)
    (w' : World_Id) (hvalid : w.entity_valid h = true)
    (hrun : world_run ops (w.destroy h) = some w')
    (hd : destroys_at (get_entity_id h) ops + 1 < idMod) :
    w'.entity_valid h = false := by
  rw [World_Id.entity_valid, Bool.and_eq_true, decide_eq_true_iff,
    decide_eq_true_iff] at hvalid
  obtain ⟨hlt, hstored⟩ := hvalid
  have hs1 : get_entity_id h < (w.destroy h).entities.length := by
    simp only [World_Id.destroy, World_Id.release_entity, List.length_set]
    exact hlt
  have hv1 : get_entity_version ((w.destroy h).entities.getD (get_entity_id h) 0) =
      (get_entity_version h + 1) % idMod := by
    simp only [World_Id.destroy, World_Id.release_entity]
    rw [getD_set_self _ _ _ _ hlt, get_entity_version_make_handle]
    unfold idMod
    omega
  obtain ⟨hs2, hv2⟩ := version_field_run ops _ w' (get_entity_id h) _ hs1 hv1 hrun
  by_contra hb
  have hb' : w'.entity_valid h = true := by
    cases hx : w'.entity_valid h
    · exact absurd hx hb
    · rfl
  rw [World_Id.entity_valid, Bool.and_eq_true, decide_eq_true_iff,
    decide_eq_true_iff] at hb'
  have hveq : get_entity_version (w'.entities.getD (get_entity_id h) 0) =
      get_entity_version h := by
    rw [hb'.2]
  rw [hv2] at hveq
  have hvlt : get_entity_version h < idMod := get_entity_version_lt h
  unfold idMod at hd hvlt hveq
  omega

/-- The world after one `new_entity()` on a fresh world: entity 0 live
with version 0. -/
def wOne : World_Id := (World_Id.empty.new_entity).2

theorem destroyed_handle_invalid_witness :
    (wOne.entity_valid (make_handle 0 0) = true ∧
      world_run [] (wOne.destroy (make_handle 0 0)) =
        some (wOne.destroy (make_handle 0 0)) ∧
      destroys_at (get_entity_id (make_handle 0 0)) [] + 1 < idMod) ∧
    (wOne.destroy (make_handle 0 0)).entity_valid (make_handle 0 0) = false :=
  ⟨⟨by decide, rfl, by decide⟩,
    destroyed_handle_invalid wOne (make_handle 0 0) [] _ (by decide) rfl (by decide)⟩

theorem new_entity_lifo_reuse_witness :
    (wOne.entity_valid (make_handle 0 0) = true ∧
      get_entity_id (make_handle 0 0) ≠ null_entity_id) ∧
    ((wOne.destroy (make_handle 0 0)).new_entity).1 =
      make_handle (get_entity_id (make_handle 0 0))
        ((get_entity_version (make_handle 0 0) + 1) % idMod) :=
  ⟨⟨by decide, by decide⟩,
    new_entity_lifo_reuse.1 wOne (make_handle 0 0) (by decide) (by decide)⟩

/-- `k` destroy-and-recreate cycles of slot 0, starting from a world
whose only entity is slot 0 at version `i` before cycle `i`. -/
def cycle_ops : Nat → List World_Op
  | 0 => []
  | k + 1 => cycle_ops k ++ [World_Op.wdestroy (make_handle 0 k), World_Op.wnew]

theorem world_run_append (l1 l2 : List World_Op) (w : World_Id) :
    world_run (l1 ++ l2) w = (world_run l1 w).bind (fun w1 => world_run l2 w1) := by
  simp only [world_run]
  rw [List.foldlM_append]
  rfl

/-- The world after `k` cycles: slot 0 live at version `k % 2^32`. -/
def cycle_state (k : Nat) : World_Id :=
  { entities := [make_handle 0 k], alive_count := 1, avail_id := null_entity_id }

theorem cycle_step (k : Nat) :
    world_run [World_Op.wdestroy (make_handle 0 k), World_Op.wnew]
      (cycle_state k) = some (cycle_state (k + 1)) := by
  have hvalid : (cycle_state k).entity_valid (make_handle 0 k) = true := by
    simp [cycle_state, World_Id.entity_valid, get_entity_id_make_handle]
  simp only [world_run, List.foldlM_cons, List.foldlM_nil, world_step, hvalid,
    if_true]
  simp only [cycle_state, World_Id.destroy, World_Id.release_entity,
    World_Id.new_entity, World_Id.recycle_entity, World_Id.generate_entity,
    get_entity_id_make_handle, get_entity_version_make_handle]
  norm_num [make_handle, null_entity_id, idMod, get_entity_version,
    get_entity_id]
  omega

/-- C4 counterexample: the version counter wraps.  Starting from a fresh
world with one entity `h0 = make_handle 0 0`, the operation sequence
`cycle_ops 2^32` begins by destroying `h0` (which is live) and then
recreates and destroys slot 0 repeatedly; after `2^32` destroys the
slot's version returns to 0 and the ORIGINAL handle `h0` answers
`valid() = true` again, so invalidity of a destroyed handle is not
permanent over unbounded operation sequences. -/
theorem destroyed_handle_valid_again_after_wrap :
    wOne.entity_valid (make_handle 0 0) = true ∧
    cycle_ops 1 = [World_Op.wdestroy (make_handle 0 0), World_Op.wnew] ∧
    (world_run (cycle_ops (2 ^ 32)) wOne).map
      (fun w => w.entity_valid (make_handle 0 0)) = some true := by
  have hrun : ∀ k : Nat, world_run (cycle_ops k) wOne = some (cycle_state k) := by
    intro k
    induction k with
    | zero =>
      show some wOne = _
      rw [show wOne = cycle_state 0 from by decide]
    | succ k ih =>
      rw [cycle_ops, world_run_append, ih]
      exact cycle_step k
  have hv : (cycle_state (2 ^ 32)).entity_valid (make_handle 0 0) = true := by
    decide
  refine ⟨by decide, rfl, ?_⟩
  rw [hrun (2 ^ 32)]
  show some ((cycle_state (2 ^ 32)).entity_valid (make_handle 0 0)) = some true
  rw [hv]

theorem null_lt_idMod : null_entity_id < idMod := by
  unfold null_entity_id idMod
  norm_num

/-- Slot `i` is live: the stored handle's id field equals its index. -/
def live_slot (w : World_Id) (i : Nat) : Prop :=
  get_entity_id (w.entities.getD i 0) = i

instance (w : World_Id) (i : Nat) : Decidable (live_slot w i) := by
  unfold live_slot
  infer_instance

/-- The number of live slots of the identity table. -/
def live_card (w : World_Id) : Nat :=
  ((Finset.range w.entities.length).filter (fun i => live_slot w i)).card

/-- The number of 64-bit handles the façade accepts as valid. -/
def valid_handle_card (w : World_Id) : Nat :=
  ((Finset.range (idMod * idMod)).filter (fun h => w.entity_valid h = true)).card

/-- The free list as a chain: `a` is the current head (`null_entity_id`
when empty) and each node stores the next link in its id field. -/
def free_chain (ents : List Nat) : Nat → List Nat → Prop
  | a, [] => a = null_entity_id
  | a, x :: xs => a = x ∧ x < ents.length ∧
      free_chain ents (get_entity_id (ents.getD x 0)) xs

/-- The World invariant behind `count()`: the table is smaller than the
null-slot sentinel, every stored handle fits in 64 bits, `alive_count`
counts the live slots, and the free slots are exactly the nodes of the
(duplicate-free) free list headed by `avail_id`. -/
def winv (w : World_Id) : Prop :=
  w.entities.length < null_entity_id ∧
  (∀ x ∈ w.entities, x < idMod * idMod) ∧
  w.alive_count = live_card w ∧
  ∃ fl : List Nat, fl.Nodup ∧ free_chain w.entities w.avail_id fl ∧
    ∀ i < w.entities.length, (live_slot w i ↔ i ∉ fl)

theorem free_chain_congr {ents ents' : List Nat} (hlen : ents'.length = ents.length) :
    ∀ {a : Nat} {fl : List Nat}, (∀ x ∈ fl, ents'.getD x 0 = ents.getD x 0) →
    free_chain ents a fl → free_chain ents' a fl := by
  intro a fl
  induction fl generalizing a with
  | nil =>
    intro _ h
    exact h
  | cons x xs ih =>
    intro hst h
    obtain ⟨ha, hx, hnext⟩ := h
    refine ⟨ha, by omega, ?_⟩
    rw [hst x (List.mem_cons_self x xs)]
    exact ih (fun y hy => hst y (List.mem_cons_of_mem _ hy)) hnext

theorem winv_empty : winv World_Id.empty := by
  refine ⟨?_, ?_, ?_, ⟨[], List.nodup_nil, ?_, ?_⟩⟩
  · norm_num [World_Id.empty, null_entity_id]
  · intro x hx
    simp [World_Id.empty] at hx
  · rfl
  · show World_Id.empty.avail_id = null_entity_id
    rfl
  · intro i hi
    simp [World_Id.empty] at hi

theorem winv_new {w : World_Id} (hinv : winv w)
    (hlen : w.entities.length + 1 < null_entity_id) :
    winv (w.new_entity).2 ∧
    (w.new_entity).2.entities.length ≤ w.entities.length + 1 ∧
    (w.new_entity).2.alive_count = w.alive_count + 1 := by
  obtain ⟨h1, h2, h3, fl, hnd, hch, hex⟩ := hinv
  by_cases havail : w.avail_id = null_entity_id
  · -- generate_entity
    have hfl : fl = [] := by
      cases fl with
      | nil => rfl
      | cons x xs =>
        obtain ⟨ha, hx, -⟩ := hch
        rw [havail] at ha
        omega
    subst hfl
    have hstate : (w.new_entity).2 =
        { entities := w.entities ++ [make_handle w.entities.length 0]
          alive_count := w.alive_count + 1
          avail_id := w.avail_id } := by
      simp [World_Id.new_entity, World_Id.generate_entity, havail]
    rw [hstate]
    have hlenM : w.entities.length < idMod := by
      have := null_lt_idMod
      omega
    have hnewlive : get_entity_id
        ((w.entities ++ [make_handle w.entities.length 0]).getD
          w.entities.length 0) = w.entities.length := by
      rw [getD_snoc_self, get_entity_id_make_handle, Nat.mod_eq_of_lt hlenM]
    refine ⟨⟨?_, ?_, ?_, ⟨[], List.nodup_nil, havail, ?_⟩⟩, ?_, rfl⟩
    · simp only [List.length_append, List.length_singleton]
      omega
    · intro x hx
      rcases List.mem_append.mp hx with hx1 | hx2
      · exact h2 x hx1
      · rw [List.mem_singleton.mp hx2]
        exact make_handle_lt _ _
    · show w.alive_count + 1 = live_card _
      unfold live_card live_slot
      simp only [List.length_append, List.length_singleton]
      rw [show w.entities.length + 1 = (w.entities.length).succ from rfl,
        Finset.range_succ, Finset.filter_insert, if_pos hnewlive,
        Finset.card_insert_of_not_mem (by
          intro hmem
          exact absurd (Finset.mem_range.mp (Finset.mem_filter.mp hmem).1)
            (lt_irrefl _)),
        Finset.filter_congr (fun i hi => by
          rw [getD_append_lt _ _ _ _ (Finset.mem_range.mp hi)]),
        h3]
      rfl
    · intro i hi
      refine iff_of_true ?_ (List.not_mem_nil i)
      simp only [List.length_append, List.length_singleton] at hi
      show get_entity_id
        ((w.entities ++ [make_handle w.entities.length 0]).getD i 0) = i
      by_cases hilt : i < w.entities.length
      · rw [getD_append_lt _ _ _ _ hilt]
        exact (hex i hilt).mpr (List.not_mem_nil i)
      · have hieq : i = w.entities.length := by omega
        rw [hieq]
        exact hnewlive
    · simp only [List.length_append, List.length_singleton]
      omega
  · -- recycle_entity
    obtain ⟨x, xs, rfl⟩ : ∃ x xs, fl = x :: xs := by
      cases fl with
      | nil => exact absurd hch havail
      | cons x xs => exact ⟨x, xs, rfl⟩
    obtain ⟨hax, hx, hnext⟩ := hch
    have hxfree : ¬ live_slot w x := by
      intro hlive
      exact ((hex x hx).mp hlive) (List.mem_cons_self x xs)
    have hxnull : ¬ (x = null_entity_id) := by
      rw [← hax]
      exact havail
    have hstate : (w.new_entity).2 =
        { entities := w.entities.set x (make_handle x
            (get_entity_version (w.entities.getD x 0)))
          alive_count := w.alive_count + 1
          avail_id := get_entity_id (w.entities.getD x 0) } := by
      simp [World_Id.new_entity, World_Id.recycle_entity, havail, hax, hxnull]
    rw [hstate]
    have hxM : x < idMod := by
      have := null_lt_idMod
      omega
    have hxlive : get_entity_id ((w.entities.set x (make_handle x
        (get_entity_version (w.entities.getD x 0)))).getD x 0) = x := by
      rw [getD_set_self _ _ _ _ hx, get_entity_id_make_handle,
        Nat.mod_eq_of_lt hxM]
    refine ⟨⟨?_, ?_, ?_, ⟨xs, hnd.of_cons, ?_, ?_⟩⟩, ?_, rfl⟩
    · rw [List.length_set]
      omega
    · intro y hy
      rcases List.mem_or_eq_of_mem_set hy with hy1 | hy2
      · exact h2 y hy1
      · rw [hy2]
        exact make_handle_lt _ _
    · show w.alive_count + 1 = live_card _
      unfold live_card live_slot
      simp only [List.length_set]
      rw [show (Finset.range w.entities.length).filter (fun i =>
          get_entity_id ((w.entities.set x (make_handle x
            (get_entity_version (w.entities.getD x 0)))).getD i 0) = i) =
          insert x ((Finset.range w.entities.length).filter (fun i =>
            live_slot w i)) from ?_]
      · rw [Finset.card_insert_of_not_mem (by
          intro hmem
          exact hxfree (Finset.mem_filter.mp hmem).2), h3]
        rfl
      · ext i
        simp only [Finset.mem_filter, Finset.mem_range, Finset.mem_insert]
        by_cases hix : i = x
        · subst hix
          constructor
          · intro _
            exact Or.inl rfl
          · intro _
            exact ⟨hx, hxlive⟩
        · rw [getD_set_ne _ _ _ (fun hc => hix hc.symm)]
          unfold live_slot
          constructor
          · rintro ⟨hi, hl⟩
            exact Or.inr ⟨hi, hl⟩
          · rintro (hc | ⟨hi, hl⟩)
            · exact absurd hc hix
            · exact ⟨hi, hl⟩
    · -- free chain for the tail, whose nodes are untouched by the set
      show free_chain
        (w.entities.set x (make_handle x (get_entity_version (w.entities.getD x 0))))
        (get_entity_id (w.entities.getD x 0)) xs
      exact @free_chain_congr w.entities
        (w.entities.set x (make_handle x (get_entity_version (w.entities.getD x 0))))
        (by rw [List.length_set]) (get_entity_id (w.entities.getD x 0)) xs
        (fun y hy => getD_set_ne _ _ _
          (fun hc => (List.nodup_cons.mp hnd).1 (hc.symm ▸ hy)))
        hnext
    · intro i hi
      rw [List.length_set] at hi
      by_cases hix : i = x
      · subst hix
        unfold live_slot
        rw [hxlive]
        simp only [true_iff]
        exact (List.nodup_cons.mp hnd).1
      · unfold live_slot
        rw [getD_set_ne _ _ _ (fun hc => hix hc.symm)]
        have := hex i hi
        unfold live_slot at this
        rw [this]
        simp only [List.mem_cons, not_or]
        constructor
        · rintro ⟨-, hmem⟩
          exact hmem
        · intro hmem
          exact ⟨hix, hmem⟩
    · rw [List.length_set]
      omega

theorem winv_destroy {w : World_Id} {h : Nat} (hinv : winv w)
    (hvalid : w.entity_valid h = true) :
    winv (w.destroy h) ∧ (w.destroy h).entities.length = w.entities.length ∧
    (w.destroy h).alive_count = w.alive_count - 1 ∧ 1 ≤ w.alive_count := by
  obtain ⟨h1, h2, h3, fl, hnd, hch, hex⟩ := hinv
  rw [World_Id.entity_valid, Bool.and_eq_true, decide_eq_true_iff,
    decide_eq_true_iff] at hvalid
  obtain ⟨htl, hstored⟩ := hvalid
  have htlive : live_slot w (get_entity_id h) := by
    unfold live_slot
    rw [hstored]
  have htfl : get_entity_id h ∉ fl := (hex _ htl).mp htlive
  have havailM : w.avail_id % idMod = w.avail_id := by
    cases fl with
    | nil =>
      rw [hch]
      exact Nat.mod_eq_of_lt null_lt_idMod
    | cons x xs =>
      obtain ⟨hax, hx, -⟩ := hch
      rw [hax]
      refine Nat.mod_eq_of_lt ?_
      have := null_lt_idMod
      omega
  have havailnt : w.avail_id ≠ get_entity_id h := by
    cases fl with
    | nil =>
      rw [hch]
      have := null_lt_idMod
      omega
    | cons x xs =>
      obtain ⟨hax, hx, -⟩ := hch
      rw [hax]
      intro hc
      exact htfl (hc ▸ List.mem_cons_self x xs)
  have hstate : w.destroy h =
      { entities := w.entities.set (get_entity_id h)
          (make_handle w.avail_id ((get_entity_version h + 1) % idMod))
        alive_count := w.alive_count - 1
        avail_id := get_entity_id h } := by
    simp [World_Id.destroy, World_Id.release_entity]
  rw [hstate]
  have htdead : get_entity_id ((w.entities.set (get_entity_id h)
      (make_handle w.avail_id ((get_entity_version h + 1) % idMod))).getD
      (get_entity_id h) 0) = w.avail_id := by
    rw [getD_set_self _ _ _ _ htl, get_entity_id_make_handle, havailM]
  have htmem : get_entity_id h ∈
      (Finset.range w.entities.length).filter (fun i => live_slot w i) :=
    Finset.mem_filter.mpr ⟨Finset.mem_range.mpr htl, htlive⟩
  have hcard1 : 1 ≤ live_card w := Finset.card_pos.mpr ⟨_, htmem⟩
  refine ⟨⟨?_, ?_, ?_,
      ⟨get_entity_id h :: fl, hnd.cons htfl, ⟨rfl, ?_, ?_⟩, ?_⟩⟩, ?_, rfl, ?_⟩
  · rw [List.length_set]
    exact h1
  · intro y hy
    rcases List.mem_or_eq_of_mem_set hy with hy1 | hy2
    · exact h2 y hy1
    · rw [hy2]
      exact make_handle_lt _ _
  · show w.alive_count - 1 = live_card _
    unfold live_card live_slot
    simp only [List.length_set]
    rw [show (Finset.range w.entities.length).filter (fun i =>
        get_entity_id ((w.entities.set (get_entity_id h)
          (make_handle w.avail_id ((get_entity_version h + 1) % idMod))).getD
          i 0) = i) =
        ((Finset.range w.entities.length).filter
          (fun i => live_slot w i)).erase (get_entity_id h) from ?_]
    · rw [Finset.card_erase_of_mem htmem, h3]
      rfl
    · ext i
      simp only [Finset.mem_filter, Finset.mem_range, Finset.mem_erase]
      by_cases hit : i = get_entity_id h
      · subst hit
        constructor
        · rintro ⟨-, hl⟩
          rw [htdead] at hl
          exact absurd hl havailnt
        · rintro ⟨hne, -⟩
          exact absurd rfl hne
      · rw [getD_set_ne _ _ _ (fun hc => hit hc.symm)]
        unfold live_slot
        constructor
        · rintro ⟨hi, hl⟩
          exact ⟨hit, hi, hl⟩
        · rintro ⟨-, hi, hl⟩
          exact ⟨hi, hl⟩
  · rw [List.length_set]
    exact htl
  · show free_chain _ (get_entity_id ((w.entities.set (get_entity_id h)
        (make_handle w.avail_id ((get_entity_version h + 1) % idMod))).getD
        (get_entity_id h) 0)) fl
    rw [htdead]
    exact @free_chain_congr w.entities
      (w.entities.set (get_entity_id h)
        (make_handle w.avail_id ((get_entity_version h + 1) % idMod)))
      (by rw [List.length_set]) w.avail_id fl
      (fun y hy => getD_set_ne _ _ _ (fun hc => htfl (hc ▸ hy)))
      hch
  · intro i hi
    rw [List.length_set] at hi
    by_cases hit : i = get_entity_id h
    · subst hit
      refine iff_of_false ?_ ?_
      · unfold live_slot
        rw [htdead]
        exact fun hc => havailnt hc
      · simp
    · unfold live_slot
      rw [getD_set_ne _ _ _ (fun hc => hit hc.symm)]
      have := hex i hi
      unfold live_slot at this
      rw [this]
      simp only [List.mem_cons, not_or]
      constructor
      · rintro hmem
        exact ⟨hit, hmem⟩
      · rintro ⟨-, hmem⟩
        exact hmem
  · exact List.length_set _ _ _
  · rw [h3]
    exact hcard1

/-- The number of `new_entity` operations in `ops` (the only operations
that can grow the identity table). -/
def news_count (ops : List World_Op) : Nat :=
  ops.countP (fun op => match op with
    | World_Op.wnew => true
    | World_Op.wdestroy _ => false)

theorem winv_run : ∀ (ops : List World_Op) (w w' : World_Id), winv w →
    w.entities.length + news_count ops < null_entity_id →
    world_run ops w = some w' → winv w' := by
  intro ops
  induction ops with
  | nil =>
    intro w w' hinv _ hrun
    simp only [world_run, List.foldlM_nil] at hrun
    cases hrun
    exact hinv
  | cons op ops ih =>
    intro w w' hinv hbudget hrun
    simp only [world_run, List.foldlM_cons] at hrun
    have hcons : news_count (op :: ops) = news_count ops +
        news_count [op] := by
      simp [news_count, List.countP_cons]
    cases hstep : world_step w op with
    | none => rw [hstep] at hrun; cases hrun
    | some w1 =>
      rw [hstep] at hrun
      cases op with
      | wnew =>
        have hone : news_count [World_Op.wnew] = 1 := by
          simp [news_count]
        rw [hcons, hone] at hbudget
        simp only [world_step, Option.some_inj] at hstep
        obtain ⟨hinv1, hlen1, -⟩ := winv_new hinv (by omega)
        rw [hstep] at hinv1 hlen1
        exact ih w1 w' hinv1 (by omega) hrun
      | wdestroy h =>
        have hzero : news_count [World_Op.wdestroy h] = 0 := by
          simp [news_count]
        rw [hcons, hzero] at hbudget
        simp only [world_step] at hstep
        split_ifs at hstep with hvalid
        cases hstep
        obtain ⟨hinv1, hlen1, -, -⟩ := winv_destroy hinv hvalid
        exact ih _ w' hinv1 (by omega) hrun

/-- With every stored handle below `2^64`, the valid handles are exactly
the stored handles of live slots, one per live slot. -/
theorem valid_card_eq_live_card (w : World_Id)
    (hstored : ∀ x ∈ w.entities, x < idMod * idMod) :
    valid_handle_card w = live_card w := by
  unfold valid_handle_card live_card
  have himg : (Finset.range (idMod * idMod)).filter
      (fun h => w.entity_valid h = true) =
      ((Finset.range w.entities.length).filter (fun i => live_slot w i)).image
        (fun i => w.entities.getD i 0) := by
    ext h
    simp only [Finset.mem_filter, Finset.mem_range, Finset.mem_image]
    constructor
    · rintro ⟨hM, hv⟩
      rw [World_Id.entity_valid, Bool.and_eq_true, decide_eq_true_iff,
        decide_eq_true_iff] at hv
      refine ⟨get_entity_id h, ⟨hv.1, ?_⟩, hv.2⟩
      unfold live_slot
      rw [hv.2]
    · rintro ⟨i, ⟨hi, hlive⟩, heq⟩
      unfold live_slot at hlive
      constructor
      · rw [← heq]
        apply hstored
        rw [List.getD_eq_getElem _ _ hi]
        exact List.getElem_mem hi
      · rw [World_Id.entity_valid, Bool.and_eq_true, decide_eq_true_iff,
          decide_eq_true_iff]
        constructor
        · rw [← heq, hlive]
          exact hi
        · rw [← heq, hlive]
  rw [himg, Finset.card_image_of_injOn]
  intro i hi j hj hij
  simp only [Finset.coe_filter, Set.mem_setOf_eq, Finset.mem_range] at hi hj
  have hi2 := hi.2
  have hj2 := hj.2
  unfold live_slot at hi2 hj2
  rw [← hi2, ← hj2]
  exact congrArg get_entity_id hij

/-- C8 (amended).  For every admissible operation sequence issuing fewer
than `2^32 - 1` `new_entity` calls, `World::count()` equals the number
of 64-bit handles the façade `valid()` accepts; and a `new_entity()`
immediately followed by `destroy()` of the fresh entity leaves
`count()` unchanged.  (The bound is necessary: once `2^32` slots exist,
fresh slot indices are truncated to 32 bits and handles collide — see
the counterexample.) -/
theorem count_eq_valid_handles (ops : List World_Op) (w : World_Id)
    (hops : news_count ops < null_entity_id)
    (hrun : world_run ops World_Id.empty = some w) :
    w.alive_count = valid_handle_card w ∧
    (world_run [World_Op.wnew, World_Op.wdestroy (w.new_entity).1] w).map
      World_Id.alive_count = some w.alive_count := by
  have hinv : winv w := winv_run ops World_Id.empty w winv_empty
    (by simpa [World_Id.empty] using hops) hrun
  obtain ⟨h1, h2, h3, fl, hnd, hch, hex⟩ := hinv
  constructor
  · rw [h3, valid_card_eq_live_card w h2]
  · -- the freshly returned handle is valid in the post-`new_entity` world
    have hfresh : (w.new_entity).2.entity_valid (w.new_entity).1 = true := by
      rw [World_Id.entity_valid, Bool.and_eq_true, decide_eq_true_iff,
        decide_eq_true_iff]
      by_cases havail : w.avail_id = null_entity_id
      · have hstate : (w.new_entity) = (make_handle w.entities.length 0,
            { entities := w.entities ++ [make_handle w.entities.length 0]
              alive_count := w.alive_count + 1
              avail_id := w.avail_id }) := by
          simp [World_Id.new_entity, World_Id.generate_entity, havail]
        rw [hstate]
        have hlenM : w.entities.length < idMod := by
          have := null_lt_idMod
          omega
        constructor
        · rw [get_entity_id_make_handle, Nat.mod_eq_of_lt hlenM]
          simp only [List.length_append, List.length_singleton]
          omega
        · rw [get_entity_id_make_handle, Nat.mod_eq_of_lt hlenM]
          exact getD_snoc_self _ _ _
      · obtain ⟨x, xs, rfl⟩ : ∃ x xs, fl = x :: xs := by
          cases fl with
          | nil => exact absurd hch havail
          | cons x xs => exact ⟨x, xs, rfl⟩
        obtain ⟨hax, hx, -⟩ := hch
        have hxnull : ¬ (x = null_entity_id) := by
          rw [← hax]
          exact havail
        have hstate : (w.new_entity) = (make_handle x
            (get_entity_version (w.entities.getD x 0)),
            { entities := w.entities.set x (make_handle x
                (get_entity_version (w.entities.getD x 0)))
              alive_count := w.alive_count + 1
              avail_id := get_entity_id (w.entities.getD x 0) }) := by
          simp [World_Id.new_entity, World_Id.recycle_entity, havail, hax, hxnull]
        rw [hstate]
        have hxM : x < idMod := by
          have := null_lt_idMod
          omega
        constructor
        · rw [get_entity_id_make_handle, Nat.mod_eq_of_lt hxM, List.length_set]
          exact hx
        · rw [get_entity_id_make_handle, Nat.mod_eq_of_lt hxM]
          exact getD_set_self _ _ _ _ hx
    have halive : (w.new_entity).2.alive_count = w.alive_count + 1 := by
      simp only [World_Id.new_entity]
      split_ifs
      · rfl
      · rfl
    have hstep2 : world_step (w.new_entity).2
        (World_Op.wdestroy (w.new_entity).1) =
        some ((w.new_entity).2.destroy (w.new_entity).1) := by
      simp only [world_step, hfresh, if_true]
    have hrun2 : world_run [World_Op.wnew, World_Op.wdestroy (w.new_entity).1] w =
        some ((w.new_entity).2.destroy (w.new_entity).1) := by
      rw [show ([World_Op.wnew, World_Op.wdestroy (w.new_entity).1]) =
        [World_Op.wnew] ++ [World_Op.wdestroy (w.new_entity).1] from rfl,
        world_run_append]
      show (world_step (w.new_entity).2 (World_Op.wdestroy (w.new_entity).1)).bind
        (fun w2 => world_run [] w2) = _
      rw [hstep2]
      rfl
    rw [hrun2]
    show some ((w.new_entity).2.destroy (w.new_entity).1).alive_count =
      some w.alive_count
    have hdal : ((w.new_entity).2.destroy (w.new_entity).1).alive_count =
        (w.new_entity).2.alive_count - 1 := rfl
    rw [hdal, halive]
    simp

theorem count_eq_valid_handles_witness :
    (news_count [World_Op.wnew] < null_entity_id ∧
      world_run [World_Op.wnew] World_Id.empty = some wOne) ∧
    (wOne.alive_count = valid_handle_card wOne ∧
      (world_run [World_Op.wnew, World_Op.wdestroy (wOne.new_entity).1]
        wOne).map World_Id.alive_count = some wOne.alive_count) :=
  ⟨⟨by decide, rfl⟩, count_eq_valid_handles [World_Op.wnew] wOne (by decide) rfl⟩

/-- The world after `k` `new_entity()` calls on a fresh world. -/
def news_state (k : Nat) : World_Id :=
  { entities := (List.range k).map (fun i => make_handle i 0)
    alive_count := k
    avail_id := null_entity_id }

theorem news_state_getD (k j : Nat) (hj : j < k) :
    (news_state k).entities.getD j 0 = make_handle j 0 := by
  unfold news_state
  rw [List.getD_eq_getElem _ _ (by
    simp only [List.length_map, List.length_range]
    exact hj)]
  simp

theorem news_run (k : Nat) :
    world_run (List.replicate k World_Op.wnew) World_Id.empty =
      some (news_state k) := by
  induction k with
  | zero => rfl
  | succ k ih =>
    rw [List.replicate_succ', world_run_append, ih]
    show world_run [World_Op.wnew] (news_state k) = some (news_state (k + 1))
    have hstate : ((news_state k).new_entity).2 = news_state (k + 1) := by
      simp only [World_Id.new_entity, news_state]
      rw [if_pos trivial]
      simp only [World_Id.generate_entity, List.length_map, List.length_range]
      rw [List.range_succ, List.map_append]
      rfl
    show (some ((news_state k).new_entity).2).bind (fun w2 => world_run [] w2) =
      some (news_state (k + 1))
    rw [hstate]
    rfl

/-- C8 counterexample: after `2^32 + 1` `new_entity()` calls the 32-bit
slot field of the fresh handle wraps — the entry appended at index
`2^32` is `make_handle (2^32 % 2^32) 0 = make_handle 0 0`, a bit-for-bit
duplicate of slot 0's handle — so `count()` is `2^32 + 1` while only
`2^32` distinct handles answer `valid()` true. -/
theorem count_claim_fails_at_wraparound :
    world_run (List.replicate (2 ^ 32 + 1) World_Op.wnew) World_Id.empty =
      some (news_state (2 ^ 32 + 1)) ∧
    (news_state (2 ^ 32 + 1)).alive_count ≠
      valid_handle_card (news_state (2 ^ 32 + 1)) := by
  refine ⟨news_run _, ?_⟩
  have hlen : (news_state (2 ^ 32 + 1)).entities.length = 2 ^ 32 + 1 := by
    simp [news_state]
  have hvalid_iff : ∀ h2 : Nat, (news_state (2 ^ 32 + 1)).entity_valid h2 = true ↔
      h2 < 2 ^ 32 := by
    intro h2
    rw [World_Id.entity_valid, Bool.and_eq_true, decide_eq_true_iff,
      decide_eq_true_iff, hlen]
    have hidlt : get_entity_id h2 < 2 ^ 32 + 1 := by
      have : get_entity_id h2 < idMod := Nat.mod_lt _ (by unfold idMod; norm_num)
      unfold idMod at this
      omega
    have hgd : (news_state (2 ^ 32 + 1)).entities.getD (get_entity_id h2) 0 =
        get_entity_id h2 := by
      rw [news_state_getD _ _ hidlt]
      show make_handle (get_entity_id h2) 0 = get_entity_id h2
      unfold make_handle get_entity_id idMod
      omega
    rw [hgd]
    unfold get_entity_id idMod
    constructor
    · rintro ⟨-, heq⟩
      omega
    · intro hlt
      omega
  have hcard : (Finset.range (idMod * idMod)).filter
      (fun h2 => (news_state (2 ^ 32 + 1)).entity_valid h2 = true) =
      Finset.range (2 ^ 32) := by
    ext h2
    simp only [Finset.mem_filter, Finset.mem_range]
    rw [hvalid_iff h2]
    unfold idMod
    constructor
    · rintro ⟨-, hlt⟩
      exact hlt
    · intro hlt
      exact ⟨by nlinarith, hlt⟩
  show (news_state (2 ^ 32 + 1)).alive_count ≠
    ((Finset.range (idMod * idMod)).filter
      (fun h2 => (news_state (2 ^ 32 + 1)).entity_valid h2 = true)).card
  rw [hcard, Finset.card_range]
  show 2 ^ 32 + 1 ≠ 2 ^ 32
  omega

end Ecs
